import Mathlib

/-!
# Credential hasher of `pkg/common/hasher.go`

A shallow embedding of `Hasher.Hash`, `Hasher.Compare`, `generateRandomBytes` and
`decode`, together with the library routines they call:

* `strings.Split` on the separator `$`,
* `fmt.Sscanf` for the formats `v=%d` and `m=%d,t=%d,p=%d`,
* `fmt.Sprintf` for the format of the encoded hash,
* `base64.RawStdEncoding` (encoding) and `base64.RawStdEncoding.Strict()` (decoding),
* `subtle.ConstantTimeCompare`,
* `argon2.IDKey`, whose block function is a parameter; its argument checks are kept.

Conventions.  A Go `string` is modelled by the list of its code points (the scanner of
`fmt` reads code points and the rest of the code compares single ASCII characters; a byte
that is not part of well-formed UTF-8 behaves like any other non-ASCII character everywhere
but as KDF input).  A `[]byte` is a `List UInt8`.
The fixed-width integers `uint32`, `uint8`, `int` are natural numbers or integers, reduced
or range-checked where the source converts or the library checks.  A Go function that
returns `(value, err)` is modelled by `Except`, or by the pair itself where a claim speaks
about the pair.  A run-time panic is the constructor `Go.panics`.

The namespace `common` also holds `pkg/common/validation.go`; the namespace `auth` holds the
token service of `pkg/auth/auth_service.go`, with the parts of `golang-jwt/jwt/v5` it calls,
and the handler `Login` of `pkg/auth/auth_controller.go`; the namespace `middlewares` holds
the handler of `internal/middlewares/auth_middleware.go`.  Collaborators behind an interface
(the authentication service, the users service, the handlers downstream of a middleware) are
parameters, so a statement that holds for every value of such a parameter does not depend on
a call of it.
-/

set_option maxRecDepth 100000

namespace common

/-! ## Data model -/

/-- A Go `string`, as the list of its code points. -/
abbrev GoString := List Char

/-- A Go `[]byte`. -/
abbrev Bytes := List UInt8

/-- Failures of `strconv.ParseUint` and `strconv.ParseInt` (`*strconv.NumError`). -/
inductive NumError
  | ErrSyntax
  | ErrRange
  deriving DecidableEq, Repr

/-- Errors of `fmt.Sscanf`: `io.ErrUnexpectedEOF`, `io.EOF`, the messages of `fmt/scan.go`, and
the `*strconv.NumError` of the function `fn` on the token `tok`. -/
inductive ScanError
  | ErrUnexpectedEOF
  | EOF
  | inputDoesNotMatchFormat
  | unexpectedNewline
  | expectedInteger
  | tooFewOperands
  | tooManyOperands
  | missingVerb
  | badVerb
  | num (fn : String) (tok : GoString) (e : NumError)
  | integerOverflow (tok : GoString)
  | unsignedIntegerOverflow (tok : GoString)
  deriving DecidableEq, Repr

/-- Error values that the hasher can return.  `InvalidHashException` and
`IncompatibleVersionException` are the two package variables of `hasher.go`; `scan` wraps an
error of `fmt.Sscanf`, `CorruptInputError` is the error of `encoding/base64` with its offset,
and `random` is an error of the random source. -/
inductive Error
  | InvalidHashException
  | IncompatibleVersionException
  | scan (e : ScanError)
  | CorruptInputError (offset : Nat)
  | random (msg : String)
  deriving DecidableEq, Repr

/-- The struct `Parameters` of `hasher.go`.  `memory`, `iterations`, `saltLength`, `keyLength`
are `uint32` and `parallelism` is `uint8` in the source. -/
structure Parameters where
  memory : Nat
  iterations : Nat
  parallelism : Nat
  saltLength : Nat
  keyLength : Nat
  deriving DecidableEq, Repr

/-- Outcome of a Go call that may panic instead of returning. -/
inductive Go (α : Type)
  | ret (a : α)
  | panics (msg : String)
  deriving DecidableEq, Repr

deriving instance DecidableEq for Except

/-! ## `strings.Split` -/

/-- Loop of `strings.Split(s, sep)` for a one-character separator: `cur` is the field being
read. -/
def SplitLoop (sep : Char) : GoString → GoString → List GoString
  | [], cur => [cur]
  | c :: cs, cur => if c = sep then cur :: SplitLoop sep cs [] else SplitLoop sep cs (cur ++ [c])

/-- The call `strings.Split(s, "$")` when `sep` is the dollar sign. -/
def Split (s : GoString) (sep : Char) : List GoString :=
  SplitLoop sep s []

/-! ## `encoding/base64` -/

/-- The standard alphabet `encodeStd`. -/
def encodeStd : List Char :=
  "ABCDEFGHIJKLMNOPQRSTUVWXYZabcdefghijklmnopqrstuvwxyz0123456789+/".toList

/-- Lookup `enc.encode[v]`. -/
def encodeChar (v : Nat) : Char :=
  encodeStd.getD v 'A'

/-- Lookup `enc.decodeMap[in]`; `none` stands for the entry `0xff`. -/
def decodeMap (c : Char) : Option Nat :=
  let i := encodeStd.indexOf c
  if i < 64 then some i else none

/-- The call `base64.RawStdEncoding.EncodeToString(src)`: three bytes give four characters, a
rest of two bytes gives three characters, a rest of one byte gives two, and no padding is
written.  `val` is `src[0]<<16 | src[1]<<8 | src[2]`. -/
def EncodeToString : Bytes → GoString
  | a :: b :: c :: rest =>
    let val := a.toNat * 65536 + b.toNat * 256 + c.toNat
    encodeChar (val / 262144 % 64) :: encodeChar (val / 4096 % 64) ::
      encodeChar (val / 64 % 64) :: encodeChar (val % 64) :: EncodeToString rest
  | [a, b] =>
    let val := a.toNat * 65536 + b.toNat * 256
    [encodeChar (val / 262144 % 64), encodeChar (val / 4096 % 64), encodeChar (val / 64 % 64)]
  | [a] =>
    let val := a.toNat * 65536
    [encodeChar (val / 262144 % 64), encodeChar (val / 4096 % 64)]
  | [] => []

/-- The 24-bit value `dbuf[0]<<18 | dbuf[1]<<12 | dbuf[2]<<6 | dbuf[3]` of a quantum. -/
def quantumVal (d0 d1 d2 d3 : Nat) : Nat :=
  d0 * 262144 + d1 * 4096 + d2 * 64 + d3

/-- The loops of `Encoding.Decode` and `decodeQuantum` for `RawStdEncoding.Strict()`, as one
pass over the input.  `si` is the index of the next input byte, `dbuf` the 6-bit values of
the quantum being read and `dst` the bytes written so far.  New-line characters are skipped,
any other character outside the alphabet (the padding character included, as the encoding
has none) is a `CorruptInputError`, and at the end of the input a quantum of two or three
characters must have its unused bits zero (strict mode).  The error is the offset carried by
the `CorruptInputError`. -/
def decodeLoop : List Char → Nat → List Nat → Bytes → Except Nat Bytes
  | [], si, dbuf, dst =>
    match dbuf with
    | [] => .ok dst
    | [_] => .error (si - 1)
    | [d0, d1] =>
      let val := quantumVal d0 d1 0 0
      if val / 256 % 256 ≠ 0 ∨ val % 256 ≠ 0 then .error (si - 2)
      else .ok (dst ++ [UInt8.ofNat (val / 65536 % 256)])
    | [d0, d1, d2] =>
      let val := quantumVal d0 d1 d2 0
      if val % 256 ≠ 0 then .error (si - 1)
      else .ok (dst ++ [UInt8.ofNat (val / 65536 % 256), UInt8.ofNat (val / 256 % 256)])
    | _ => .ok dst
  | c :: src, si, dbuf, dst =>
    match decodeMap c with
    | some out =>
      match dbuf with
      | [d0, d1, d2] =>
        let val := quantumVal d0 d1 d2 out
        decodeLoop src (si + 1) []
          (dst ++ [UInt8.ofNat (val / 65536 % 256), UInt8.ofNat (val / 256 % 256),
            UInt8.ofNat (val % 256)])
      | _ => decodeLoop src (si + 1) (dbuf ++ [out]) dst
    | none =>
      if c = '\n' ∨ c = '\r' then decodeLoop src (si + 1) dbuf dst
      else .error si

/-- The call `base64.RawStdEncoding.Strict().DecodeString(s)`; the error is the offset of the
`CorruptInputError`. -/
def DecodeString (s : GoString) : Except Nat Bytes :=
  decodeLoop s 0 [] []

/-! ## `strconv` and `fmt` -/

/-- The digits that `%d` accepts (`decimalDigits`). -/
def decimalDigits : List Char := "0123456789".toList

/-- The characters of `sign`. -/
def sign : List Char := "+-".toList

/-- Loop of `strconv.ParseUint(s, 10, 64)` over the bytes of `s`, with accumulator `n`. -/
def ParseUintLoop : List Char → Nat → Except NumError Nat
  | [], n => .ok n
  | c :: cs, n =>
    if decimalDigits.contains c then
      let n1 := n * 10 + (c.toNat - 48)
      if n1 ≥ 2 ^ 64 then .error .ErrRange else ParseUintLoop cs n1
    else .error .ErrSyntax

/-- The call `strconv.ParseUint(s, 10, 64)`. -/
def ParseUint (s : List Char) : Except NumError Nat :=
  if s = [] then .error .ErrSyntax else ParseUintLoop s 0

/-- The call `strconv.ParseInt(s, 10, 64)`. -/
def ParseInt (s : List Char) : Except NumError Int :=
  match s with
  | [] => .error .ErrSyntax
  | c :: cs =>
    let neg := decide (c = '-')
    let digits := if c = '+' ∨ c = '-' then cs else c :: cs
    match ParseUint digits with
    | .error .ErrSyntax => .error .ErrSyntax
    | .error .ErrRange => .error .ErrRange
    | .ok un =>
      if ¬ neg ∧ un ≥ 2 ^ 63 then .error .ErrRange
      else if neg ∧ un > 2 ^ 63 then .error .ErrRange
      else .ok (if neg then - (un : Int) else (un : Int))

/-- Digits of `u` in base ten, most significant first, written in front of `acc`; `fuel`
bounds the number of digits. -/
def fmtDigits : Nat → Nat → List Char → List Char
  | 0, _, acc => acc
  | fuel + 1, u, acc =>
    if u < 10 then Char.ofNat (48 + u) :: acc
    else fmtDigits fuel (u / 10) (Char.ofNat (48 + u % 10) :: acc)

/-- The verb `%d` of `fmt.Sprintf` applied to a non-negative integer. -/
def fmtInteger (u : Nat) : GoString :=
  fmtDigits (u + 1) u []

/-- The table `space` of `fmt/scan.go`. -/
def space : List (Nat × Nat) :=
  [(0x0009, 0x000d), (0x0020, 0x0020), (0x0085, 0x0085), (0x00a0, 0x00a0), (0x1680, 0x1680),
   (0x2000, 0x200a), (0x2028, 0x2029), (0x202f, 0x202f), (0x205f, 0x205f), (0x3000, 0x3000)]

/-- The function `isSpace` of `fmt/scan.go`. -/
def isSpace (r : Char) : Bool :=
  decide (r.toNat < 65536) && space.any (fun rng => decide (rng.1 ≤ r.toNat ∧ r.toNat ≤ rng.2))

/-- The method `ss.SkipSpace` for `Sscanf` (`nlIsSpace` is false): spaces are skipped, a
new line is an error. -/
def SkipSpace : List Char → Except ScanError (List Char)
  | [] => .ok []
  | r :: rest =>
    if r = '\r' ∧ rest.head? = some '\n' then SkipSpace rest
    else if r = '\n' then .error .unexpectedNewline
    else if isSpace r then SkipSpace rest
    else .ok (r :: rest)

/-- The loop `for s.accept(digits) {}` of `scanNumber`: `buf` is the token buffer. -/
def acceptAll (ok : List Char) : List Char → List Char → List Char × List Char
  | buf, [] => (buf, [])
  | buf, r :: rest => if ok.contains r then acceptAll ok (buf ++ [r]) rest else (buf, r :: rest)

/-- The method `ss.scanNumber(digits, false)`: at least one digit, then all that follow. -/
def scanNumber (digits : List Char) (buf : List Char) (s : List Char) :
    Except ScanError (List Char × List Char) :=
  match s with
  | [] => .error .EOF
  | r :: rest =>
    if digits.contains r then .ok (acceptAll digits (buf ++ [r]) rest)
    else .error .expectedInteger

/-- The method `ss.scanInt('d', bitSize)`: spaces, an optional sign, digits, then
`strconv.ParseInt` and the check that the value fits `bitSize` bits. -/
def scanInt (bitSize : Nat) (s : List Char) : Except ScanError (Int × List Char) :=
  match SkipSpace s with
  | .error e => .error e
  | .ok [] => .error .EOF
  | .ok (r :: rest) =>
    let signed := sign.contains r
    match scanNumber decimalDigits (if signed then [r] else [])
        (if signed then rest else r :: rest) with
    | .error e => .error e
    | .ok (tok, s1) =>
      match ParseInt tok with
      | .error e => .error (.num "ParseInt" tok e)
      | .ok i =>
        if - (2 : Int) ^ (bitSize - 1) ≤ i ∧ i < (2 : Int) ^ (bitSize - 1) then .ok (i, s1)
        else .error (.integerOverflow tok)

/-- The method `ss.scanUint('d', bitSize)`: spaces, digits (no sign), then
`strconv.ParseUint` and the check that the value fits `bitSize` bits. -/
def scanUint (bitSize : Nat) (s : List Char) : Except ScanError (Nat × List Char) :=
  match SkipSpace s with
  | .error e => .error e
  | .ok [] => .error .EOF
  | .ok (r :: rest) =>
    match scanNumber decimalDigits [] (r :: rest) with
    | .error e => .error e
    | .ok (tok, s1) =>
      match ParseUint tok with
      | .error e => .error (.num "ParseUint" tok e)
      | .ok i =>
        if i % 2 ^ bitSize = i then .ok (i, s1)
        else .error (.unsignedIntegerOverflow tok)

/-- A list of characters does not start with a decimal digit. -/
def NoDigitAhead (rest : List Char) : Prop :=
  ∀ c, rest.head? = some c → decimalDigits.contains c = false

/-- The type of the pointer that a verb stores into. -/
inductive Arg
  | int
  | uint32
  | uint8
  deriving DecidableEq, Repr

/-- The method `ss.scanOne('d', arg)`, by the type of `arg`. -/
def scanOne (arg : Arg) (s : List Char) : Except ScanError (Int × List Char) :=
  match arg with
  | .int => scanInt 64 s
  | .uint32 =>
    match scanUint 32 s with
    | .error e => .error e
    | .ok (v, s1) => .ok ((v : Int), s1)
  | .uint8 =>
    match scanUint 8 s with
    | .error e => .error e
    | .ok (v, s1) => .ok ((v : Int), s1)

/-- One literal character of the format in `ss.advance`: it must be the next input
character, and the end of the input is `io.ErrUnexpectedEOF`. -/
def advance (fmtc : Char) (s : List Char) : Except ScanError (List Char) :=
  match s with
  | [] => .error .ErrUnexpectedEOF
  | inputc :: s1 => if fmtc = inputc then .ok s1 else .error .inputDoesNotMatchFormat

/-- One verb `%d` in `ss.doScanf`: spaces are skipped, the next operand of `a` is taken and
scanned.  The result is the value, the operands left and the input left. -/
def scanVerb (a : List Arg) (s : List Char) : Except ScanError (Int × List Arg × List Char) :=
  match SkipSpace s with
  | .error e => .error e
  | .ok s1 =>
    match a with
    | [] => .error .tooFewOperands
    | arg :: a1 =>
      match scanOne arg s1 with
      | .error e => .error e
      | .ok (v, s2) => .ok (v, a1, s2)

/-- The method `ss.doScanf` for a format made of `%d` verbs and of literal characters that
are not spaces (the two formats of `decode`).  `vals` collects the values stored so far. -/
def doScanf : List Char → List Arg → List Char → List Int → Except ScanError (List Int)
  | [], a, _, vals => if a = [] then .ok vals else .error .tooManyOperands
  | fmtc :: format, a, s, vals =>
    if fmtc = '%' then
      match format with
      | [] => .error .missingVerb
      | verb :: format1 =>
        if verb = 'd' then
          match scanVerb a s with
          | .error e => .error e
          | .ok (v, a1, s2) => doScanf format1 a1 s2 (vals ++ [v])
        else .error .badVerb
    else
      match advance fmtc s with
      | .error e => .error e
      | .ok s1 => doScanf format a s1 vals

/-- The constant `hugeWid` of `fmt/scan.go`: a scan reads at most this many code points. -/
def hugeWid : Nat := 2 ^ 30

/-- The call `fmt.Sscanf(str, format, a...)`; the result is the list of stored values. -/
def Sscanf (str : GoString) (format : List Char) (a : List Arg) : Except ScanError (List Int) :=
  doScanf format a (str.take hugeWid) []

/-! ## `crypto/subtle` -/

/-- The function `subtle.ConstantTimeByteEq(x, y)`, that is `int((uint32(x^y) - 1) >> 31)`. -/
def ConstantTimeByteEq (x y : Nat) : Nat :=
  ((x ^^^ y) + 2 ^ 32 - 1) % 2 ^ 32 / 2 ^ 31

/-- The loop `for i := 0; i < len(x); i++ { v |= x[i] ^ y[i] }` of
`subtle.ConstantTimeCompare` with `n` iterations left, at index `i` and accumulator `v`.
Next to the final accumulator it returns the indices at which it has read the two slices, in
the order of the reads: the loop has no exit other than its bound. -/
def compareLoop (x y : Bytes) : Nat → Nat → Nat → List Nat → Nat × List Nat
  | 0, _, v, reads => (v, reads)
  | n + 1, i, v, reads =>
    compareLoop x y n (i + 1) (v ||| ((x.getD i 0).toNat ^^^ (y.getD i 0).toNat))
      (reads ++ [i])

/-- The function `subtle.ConstantTimeCompare(x, y)` together with the indices its loop
reads: `0` and no read when the lengths differ, otherwise every pair of bytes is combined
into `v |= x[i] ^ y[i]` and the result is `ConstantTimeByteEq(v, 0)`. -/
def ConstantTimeCompareTrace (x y : Bytes) : Nat × List Nat :=
  if x.length ≠ y.length then (0, [])
  else
    let r := compareLoop x y x.length 0 0 []
    (ConstantTimeByteEq r.1 0, r.2)

/-- The function `subtle.ConstantTimeCompare(x, y)`: the value that the run of
`ConstantTimeCompareTrace` returns. -/
def ConstantTimeCompare (x y : Bytes) : Nat :=
  (ConstantTimeCompareTrace x y).1

/-! ## `golang.org/x/crypto/argon2` -/

/-- The constant `argon2.Version`. -/
def argon2Version : Int := 0x13

/-- The block function of Argon2id, a parameter of the development: a deterministic function
of password, salt, time, memory, threads and key length that returns `keyLen` bytes. -/
structure Argon2 where
  deriveKey : Bytes → Bytes → Nat → Nat → Nat → Nat → Bytes
  deriveKey_length : ∀ password salt time memory threads keyLen,
    (deriveKey password salt time memory threads keyLen).length = keyLen

/-- The call `argon2.IDKey(password, salt, time, memory, threads, keyLen)`.  The library
panics when `time < 1` or `threads < 1`, and for `keyLen = 0` its final BLAKE2b step
dereferences a nil hash; otherwise it returns the derived key.  The allocation of the
`memory` blocks of 1 KiB is not represented: where the runtime cannot allocate them the
process aborts, so what is stated about a call beyond the defaults of `Hash` is stated under
the hypothesis that the call returns. -/
def IDKey (A : Argon2) (password salt : Bytes) (time memory threads keyLen : Nat) : Go Bytes :=
  if time < 1 then .panics "argon2: number of rounds too small"
  else if threads < 1 then .panics "argon2: parallelism degree too low"
  else if keyLen = 0 then .panics "runtime error: invalid memory address or nil pointer dereference"
  else .ret (A.deriveKey password salt time memory threads keyLen)

/-! ## `pkg/common/hasher.go` -/

/-- The conversion `uint32(n)` of a non-negative `int`. -/
def uint32 (n : Nat) : Nat :=
  n % 2 ^ 32

/-- The conversion `[]byte(s)` of a string: its UTF-8 bytes. -/
def toBytes (s : GoString) : Bytes :=
  s.flatMap String.utf8EncodeChar

/-- The function `generateRandomBytes(n)`.  `rand` is the call `rand.Read` on a buffer of the
given length: an error, or the bytes it filled the buffer with. -/
def generateRandomBytes (rand : Nat → Except Error Bytes) (n : Nat) : Except Error Bytes :=
  match rand n with
  | .error err => .error err
  | .ok b => .ok b

/-- The call `fmt.Sprintf("$argon2id$v=%d$m=%d,t=%d,p=%d$%s$%s", version, memory,
iterations, parallelism, b64Salt, b64Hash)` for non-negative integers. -/
def Sprintf (version memory iterations parallelism : Nat) (b64Salt b64Hash : GoString) :
    GoString :=
  "$argon2id$v=".toList ++ fmtInteger version ++ "$m=".toList ++ fmtInteger memory ++
    ",t=".toList ++ fmtInteger iterations ++ ",p=".toList ++ fmtInteger parallelism ++
    "$".toList ++ b64Salt ++ "$".toList ++ b64Hash

/-- The method `Hasher.Hash(from_string)`, returning the pair `(encodedHash, err)`. -/
def Hash (A : Argon2) (rand : Nat → Except Error Bytes) (from_string : GoString) :
    Go (GoString × Option Error) :=
  let params : Parameters :=
    { memory := 64 * 1024, iterations := 3, parallelism := 2, saltLength := 16, keyLength := 32 }
  match generateRandomBytes rand params.saltLength with
  | .error err => .ret ([], some err)
  | .ok salt =>
    match IDKey A (toBytes from_string) salt params.iterations params.memory params.parallelism
        params.keyLength with
    | .panics msg => .panics msg
    | .ret hash =>
      let b64Salt := EncodeToString salt
      let b64Hash := EncodeToString hash
      .ret (Sprintf argon2Version.toNat params.memory params.iterations params.parallelism
        b64Salt b64Hash, none)

/-- The function `decode(encodedHash)`, returning `(params, salt, hash)` or the error. -/
def decode (encodedHash : GoString) : Except Error (Parameters × Bytes × Bytes) :=
  let vals := Split encodedHash '$'
  if vals.length ≠ 6 then .error .InvalidHashException
  else
    match Sscanf (vals.getD 2 []) "v=%d".toList [.int] with
    | .error err => .error (.scan err)
    | .ok version =>
      if version.getD 0 0 ≠ argon2Version then .error .IncompatibleVersionException
      else
        match Sscanf (vals.getD 3 []) "m=%d,t=%d,p=%d".toList [.uint32, .uint32, .uint8] with
        | .error err => .error (.scan err)
        | .ok mtp =>
          match DecodeString (vals.getD 4 []) with
          | .error err => .error (.CorruptInputError err)
          | .ok salt =>
            match DecodeString (vals.getD 5 []) with
            | .error err => .error (.CorruptInputError err)
            | .ok hash =>
              .ok ({ memory := (mtp.getD 0 0).toNat, iterations := (mtp.getD 1 0).toNat,
                     parallelism := (mtp.getD 2 0).toNat, saltLength := uint32 salt.length,
                     keyLength := uint32 hash.length }, salt, hash)

/-- The method `Hasher.Compare(plaintext, encodedHash)` with the work of its comparison made
explicit: the pair `(matches, err)`, and the indices at which its call of
`subtle.ConstantTimeCompare` has read the two keys (none where the call is not reached). -/
def CompareTrace (A : Argon2) (plaintext encodedHash : GoString) :
    Go ((Bool × Option Error) × List Nat) :=
  match decode encodedHash with
  | .error err => .ret ((false, some err), [])
  | .ok (params, salt, hash) =>
    match IDKey A (toBytes plaintext) salt params.iterations params.memory params.parallelism
        params.keyLength with
    | .panics msg => .panics msg
    | .ret otherHash =>
      let compared := ConstantTimeCompareTrace hash otherHash
      if compared.1 = 1 then .ret ((true, none), compared.2)
      else .ret ((false, none), compared.2)

/-- The method `Hasher.Compare(plaintext, encodedHash)`, returning the pair
`(matches, err)`: what the run of `CompareTrace` returns. -/
def Compare (A : Argon2) (plaintext encodedHash : GoString) : Go (Bool × Option Error) :=
  match CompareTrace A plaintext encodedHash with
  | .panics msg => .panics msg
  | .ret (result, _) => .ret result

/-! ## Concrete instances used to evaluate the definitions -/

/-- A stand-in block function: byte `i` of the key is the sum of the password bytes, the salt
bytes, the three cost parameters and `i`, modulo 256. -/
def sumArgon2 : Argon2 where
  deriveKey password salt time memory threads keyLen :=
    (List.range keyLen).map fun i =>
      UInt8.ofNat ((password.map UInt8.toNat).sum + (salt.map UInt8.toNat).sum + time + memory +
        threads + i)
  deriveKey_length := by intros; simp

/-- A random source that fills every buffer with the bytes `seed`, `seed + 1`, ... -/
def countingRand (seed : Nat) (n : Nat) : Except Error Bytes :=
  .ok ((List.range n).map fun i => UInt8.ofNat (seed + i))

/-- A random source that is unavailable: every read fails. -/
def failingRand (_n : Nat) : Except Error Bytes :=
  .error (.random "entropy source unavailable")

/-- The input of the base64 decoder without the carriage-return and line-feed characters,
which `Encoding.Decode` skips. -/
def stripNewlines (s : GoString) : GoString :=
  s.filter fun c => !(c = '\n' || c = '\r')

/-- A string is valid unpadded standard-alphabet base64 when it is the unpadded encoding of
some byte sequence. -/
def ValidRawStd (s : GoString) : Prop :=
  ∃ bs : Bytes, EncodeToString bs = s

/-! ## `pkg/common/validation.go` -/

/-- A `validator.FieldError`: the name of the struct field, the tag of the rule that failed
and the parameter of the rule. -/
structure FieldError where
  Field : GoString
  Tag : GoString
  Param : GoString
  deriving DecidableEq, Repr

/-- The struct `ValidationErrorMessage`. -/
structure ValidationErrorMessage where
  Field : GoString
  Message : GoString
  deriving DecidableEq, Repr

/-- A field of a struct type as `reflect` shows it: its name and the value of the key `json`
of its tag (empty when the tag has no such key). -/
structure StructField where
  Name : GoString
  jsonTag : GoString
  deriving DecidableEq, Repr

/-- The outcome of `ctx.ShouldBind(body)`: no error, an error that is a
`validator.ValidationErrors`, or another error; `body` is the struct as the call leaves it. -/
inductive BindResult (β : Type)
  | ok (body : β)
  | validationErrors (ve : List FieldError) (body : β)
  | otherError (msg : String) (body : β)

/-- The struct after `ctx.ShouldBind(body)`. -/
def BindResult.body {β : Type} : BindResult β → β
  | .ok body => body
  | .validationErrors _ body => body
  | .otherError _ body => body

/-- The function `getJSONFieldName(structType, fieldName)`. -/
def getJSONFieldName (structType : List StructField) (fieldName : GoString) : GoString :=
  match structType.find? fun f => f.Name = fieldName with
  | none => fieldName
  | some field =>
    let jsonTag := field.jsonTag
    if jsonTag = [] then fieldName
    else (Split jsonTag ',').getD 0 []

/-- The function `getValidationErrorMessage(error)`. -/
def getValidationErrorMessage (error : FieldError) : GoString :=
  if error.Tag = "required".toList then "This field is required.".toList
  else if error.Tag = "lte".toList then
    "This field should be less than or equal to ".toList ++ error.Param ++ ".".toList
  else if error.Tag = "gte".toList then
    "This field should be greater than or equal to ".toList ++ error.Param ++ ".".toList
  else if error.Tag = "email".toList then "Please enter a valid email address.".toList
  else if error.Tag = "eqfield".toList then
    "Must be equal to ".toList ++ error.Param ++ ".".toList
  else error.Tag

/-- The method `Validation.ValidateBody(ctx, body)`: the list under the key `errors` of the
returned `gin.H`, or `none` for the nil pointer. -/
def ValidateBody {β : Type} (structType : List StructField) (bind : BindResult β) :
    Option (List ValidationErrorMessage) :=
  match bind with
  | .ok _ => none
  | .validationErrors ve _ =>
    some (ve.map fun fe =>
      { Field := getJSONFieldName structType fe.Field, Message := getValidationErrorMessage fe })
  | .otherError _ _ => none

/-- The struct type `TestBody` of `validation_test.go`. -/
def TestBodyType : List StructField :=
  [{ Name := "Name".toList, jsonTag := "name".toList },
   { Name := "Email".toList, jsonTag := "email".toList }]

/-- The JSON name of a struct field in the words of the specification: the part of its `json`
tag before the first comma, or the Go field name when the field has no `json` tag. -/
def specJSONName (f : StructField) : GoString :=
  if f.jsonTag = [] then f.Name else f.jsonTag.takeWhile fun c => c ≠ ','

/-- The friendly text for a failing rule in the words of the specification. -/
def specMessage (tag param : GoString) : GoString :=
  if tag = "required".toList then "This field is required.".toList
  else if tag = "email".toList then "Please enter a valid email address.".toList
  else if tag = "lte".toList then
    "This field should be less than or equal to ".toList ++ param ++ ".".toList
  else if tag = "gte".toList then
    "This field should be greater than or equal to ".toList ++ param ++ ".".toList
  else if tag = "eqfield".toList then "Must be equal to ".toList ++ param ++ ".".toList
  else tag

/-! ## `strings.ToLower` -/

/-- The function `unicode.ToLower(r)`: an ASCII capital is moved by `'a' - 'A'`, every other
ASCII code point is kept, and beyond ASCII the case tables of the package decide;
`caseTable` is that part, `unicode.To(unicode.LowerCase, r)`. -/
def unicodeToLower (caseTable : Char → Char) (r : Char) : Char :=
  if r.toNat ≤ 0x7F then
    if 'A'.toNat ≤ r.toNat ∧ r.toNat ≤ 'Z'.toNat then Char.ofNat (r.toNat + 32) else r
  else caseTable r

/-- The function `strings.ToLower(s)`.  Its path for strings of ASCII and its general path,
`strings.Map(unicode.ToLower, s)`, agree on ASCII, so every code point is mapped. -/
def ToLower (caseTable : Char → Char) (s : GoString) : GoString :=
  s.map (unicodeToLower caseTable)

/-- A case table that changes nothing, to evaluate `ToLower` on ASCII text. -/
def asciiCaseTable : Char → Char :=
  fun r => r

/-! ## An encoded hash with a key of more than `2 ^ 32` bytes -/

/-- A key of `2 ^ 32 + 1` zero bytes. -/
def longKey : Bytes :=
  List.replicate (2 ^ 32 + 1) 0

/-- The encoding of `longKey` with the salt `foo` and the default parameters. -/
def longKeyHash : GoString :=
  Sprintf 19 65536 3 2 (EncodeToString [102, 111, 111]) (EncodeToString longKey)

end common

namespace auth

open common

/-! ## Numbers of `encoding/json` and clock readings of `time` -/

/-- A finite `float64`, as the fraction `num / 2 ^ exp2` (not normalised). -/
structure Float64 where
  num : Int
  exp2 : Nat
  deriving DecidableEq, Repr

/-- The largest integer not above a `float64`. -/
def Float64.floor (f : Float64) : Int :=
  f.num / 2 ^ f.exp2

/-- The integer part of a `float64`, rounded towards zero. -/
def Float64.trunc (f : Float64) : Int :=
  Int.tdiv f.num (2 ^ f.exp2)

/-- Rounding of a natural number to 53 significant bits, to nearest and ties to even. -/
def round53 (n : Nat) : Nat :=
  if n < 2 ^ 53 then n
  else
    let k := Nat.log2 n - 52
    let q := n / 2 ^ k
    let r := n % 2 ^ k
    let half := 2 ^ (k - 1)
    let q1 := if r < half then q else if half < r then q + 1 else if q % 2 = 0 then q else q + 1
    q1 * 2 ^ k

/-- The `float64` that `encoding/json` decodes an integer literal to. -/
def Float64.ofInt (n : Int) : Float64 :=
  { num := if n < 0 then - (round53 n.natAbs : Int) else (round53 n.natAbs : Int), exp2 := 0 }

/-- The result of `Location.lookup` at an instant: the offset of the zone in use, in seconds
east of UTC, and the instants at which it starts and stops being in use. -/
structure Zone where
  offset : Int
  start : Int
  stop : Int
  deriving DecidableEq, Repr

/-- A `*time.Location`, by its method `lookup` on Unix seconds. -/
abbrev Location := Int → Zone

/-- The location `time.UTC`. -/
def UTC : Location :=
  fun _ => { offset := 0, start := - 2 ^ 63, stop := 2 ^ 63 - 1 }

/-- The value `t.AddDate(0, 0, days).Unix()` for the instant `t` of Unix time `sec` in the
location `loc`.  `AddDate` reads the wall clock of `t`, adds the days to the date and calls
`time.Date`, which looks the zone offset up for the new wall clock. -/
def AddDateUnix (loc : Location) (sec : Int) (days : Int) : Int :=
  let unix := sec + (loc sec).offset + days * 86400
  let z := loc unix
  if z.offset ≠ 0 then
    let utc := unix - z.offset
    let offset := if utc < z.start ∨ utc ≥ z.stop then (loc utc).offset else z.offset
    unix - offset
  else unix

/-! ## `github.com/golang-jwt/jwt/v5` -/

/-- A value of a decoded JSON object: `nil`, a `bool`, a `float64`, a `string`, or an array or
object, whose contents the code never looks at. -/
inductive Value
  | null
  | bool (b : Bool)
  | float64 (f : Float64)
  | string (s : GoString)
  | composite
  deriving DecidableEq, Repr

/-- The type `jwt.MapClaims`, as the list of its entries. -/
abbrev MapClaims := List (GoString × Value)

/-- The values of `crypto.Hash` that the signing methods use. -/
inductive CryptoHash
  | SHA256
  | SHA384
  | SHA512
  deriving DecidableEq, Repr

/-- The signing methods that the library registers. -/
inductive SigningMethod
  | HMAC (h : CryptoHash)
  | RSA (h : CryptoHash)
  | RSAPSS (h : CryptoHash)
  | ECDSA (h : CryptoHash)
  | Ed25519
  | none
  deriving DecidableEq, Repr

/-- The method `Alg()` of a signing method. -/
def SigningMethod.Alg : SigningMethod → GoString
  | .HMAC .SHA256 => "HS256".toList
  | .HMAC .SHA384 => "HS384".toList
  | .HMAC .SHA512 => "HS512".toList
  | .RSA .SHA256 => "RS256".toList
  | .RSA .SHA384 => "RS384".toList
  | .RSA .SHA512 => "RS512".toList
  | .RSAPSS .SHA256 => "PS256".toList
  | .RSAPSS .SHA384 => "PS384".toList
  | .RSAPSS .SHA512 => "PS512".toList
  | .ECDSA .SHA256 => "ES256".toList
  | .ECDSA .SHA384 => "ES384".toList
  | .ECDSA .SHA512 => "ES512".toList
  | .Ed25519 => "EdDSA".toList
  | .none => "none".toList

/-- The registry of signing methods by the value of the header field `alg`. -/
def signingMethods : List (GoString × SigningMethod) :=
  [("HS256".toList, .HMAC .SHA256), ("HS384".toList, .HMAC .SHA384),
   ("HS512".toList, .HMAC .SHA512), ("RS256".toList, .RSA .SHA256),
   ("RS384".toList, .RSA .SHA384), ("RS512".toList, .RSA .SHA512),
   ("PS256".toList, .RSAPSS .SHA256), ("PS384".toList, .RSAPSS .SHA384),
   ("PS512".toList, .RSAPSS .SHA512), ("ES256".toList, .ECDSA .SHA256),
   ("ES384".toList, .ECDSA .SHA384), ("ES512".toList, .ECDSA .SHA512),
   ("EdDSA".toList, .Ed25519), ("none".toList, .none)]

/-- The function `jwt.GetSigningMethod(alg)`. -/
def GetSigningMethod (alg : GoString) : Option SigningMethod :=
  signingMethods.lookup alg

/-- Errors of a signing method. -/
inductive VerifyError
  | ErrSignatureInvalid
  | ErrInvalidKeyType
  | NoneSignatureTypeDisallowedError
  deriving DecidableEq, Repr

/-- Errors of the validation of the claims. -/
inductive ClaimError
  | ErrTokenExpired
  | ErrTokenNotValidYet
  | ErrInvalidType (key : GoString)
  deriving DecidableEq, Repr

/-- Errors of `jwt.Parse` and `Token.SignedString`, with what they wrap. -/
inductive JwtError
  | ErrTokenMalformed
  | ErrTokenUnverifiable
  | ErrTokenSignatureInvalid (cause : VerifyError)
  | ErrTokenInvalidClaims (causes : List ClaimError)
  | ErrInvalidKeyType
  deriving DecidableEq, Repr

/-- A token string, represented by what `Parser.ParseUnverified` reads in it: either it is
malformed (not three segments, or a header or claims segment that is not base64url of a JSON
object), or it has a signing string (the first two segments with their dot), the header field
`alg` when it is a string, the claims, and the bytes of the signature segment when that
segment is base64url. -/
inductive TokenString
  | malformed
  | segments (signingString : GoString) (alg : Option GoString) (claims : MapClaims)
      (signature : Option Bytes)
  deriving DecidableEq, Repr

/-- What the embedding takes from outside the repository: the HMAC of the three hash
functions, as a function of key and message; the text `Token.SigningString()` of a token with
a given header field `alg` and integer claims; and the result of the conversion `int32(f)` of
a `float64` outside the range of `int32`, which Go leaves to the implementation. -/
structure Lib where
  hmac : CryptoHash → Bytes → Bytes → Bytes
  SigningString : GoString → List (GoString × Int) → GoString
  int32OutOfRange : Float64 → Int

/-- The type `jwt.Token` after `jwt.Parse`. -/
structure Token where
  Method : SigningMethod
  Claims : MapClaims
  Signature : Bytes
  Valid : Bool
  deriving DecidableEq, Repr

/-- The method `Verify(signingString, sig, key)` of a signing method for a key of type
`[]byte`: HMAC compares the signature with the HMAC of the signing string, `none` refuses
every key but its own constant, and the other methods refuse a `[]byte` key. -/
def Verify (L : Lib) (method : SigningMethod) (signingString : GoString) (sig key : Bytes) :
    Option VerifyError :=
  match method with
  | .HMAC h => if sig = L.hmac h key (toBytes signingString) then none
               else some .ErrSignatureInvalid
  | .none => some .NoneSignatureTypeDisallowedError
  | _ => some .ErrInvalidKeyType

/-- The method `MapClaims.parseNumericDate(key)`: no date when the claim is absent or is the
number 0, the date truncated to seconds when it is a number, an error otherwise.  The date
is the floor of the number, which is what the library's `int64(...)` and `time.Unix` give for
numbers within `2 ^ 62` seconds of the epoch; beyond `2 ^ 63` those conversions overflow,
which is not represented, and what is stated about dates keeps within that range. -/
def parseNumericDate (claims : MapClaims) (key : GoString) : Except ClaimError (Option Int) :=
  match claims.lookup key with
  | Option.none => .ok Option.none
  | some (.float64 f) => if f.num = 0 then .ok Option.none else .ok (some f.floor)
  | some _ => .error (.ErrInvalidType key)

/-- The method `Validator.verifyExpiresAt(claims, now, false)`; `now` is the Unix time of the
clock, in seconds.  The comparison is that of the library for dates in the range in which
`parseNumericDate` is exact. -/
def verifyExpiresAt (claims : MapClaims) (now : Int) : Option ClaimError :=
  match parseNumericDate claims "exp".toList with
  | .error e => some e
  | .ok Option.none => Option.none
  | .ok (some exp) => if now < exp then Option.none else some .ErrTokenExpired

/-- The method `Validator.verifyNotBefore(claims, now, false)`, for dates in the range in
which `parseNumericDate` is exact. -/
def verifyNotBefore (claims : MapClaims) (now : Int) : Option ClaimError :=
  match parseNumericDate claims "nbf".toList with
  | .error e => some e
  | .ok Option.none => Option.none
  | .ok (some nbf) => if now < nbf then some .ErrTokenNotValidYet else Option.none

/-- The method `Validator.Validate(claims)` of the default validator: expiry and not-before
are checked, issued-at, audience, issuer and subject are not.  The result is the list of the
errors found. -/
def Validate (claims : MapClaims) (now : Int) : List ClaimError :=
  (verifyExpiresAt claims now).toList ++ (verifyNotBefore claims now).toList

/-- The call `jwt.Parse(tokenString, keyFunc)` with a key function that returns `key` and no
error, at clock reading `now`. -/
def Parse (L : Lib) (now : Int) (tokenString : TokenString) (key : Bytes) :
    Except JwtError Token :=
  match tokenString with
  | .malformed => .error .ErrTokenMalformed
  | .segments signingString alg claims signature =>
    match alg with
    | Option.none => .error .ErrTokenUnverifiable
    | some name =>
      match GetSigningMethod name with
      | Option.none => .error .ErrTokenUnverifiable
      | some method =>
        match signature with
        | Option.none => .error .ErrTokenMalformed
        | some sig =>
          match Verify L method signingString sig key with
          | some e => .error (.ErrTokenSignatureInvalid e)
          | Option.none =>
            match Validate claims now with
            | [] => .ok { Method := method, Claims := claims, Signature := sig, Valid := true }
            | e :: es => .error (.ErrTokenInvalidClaims (e :: es))

/-- The method `Sign(signingString, key)` of a signing method for a key of type `[]byte`. -/
def Sign (L : Lib) (method : SigningMethod) (signingString : GoString) (key : Bytes) :
    Except JwtError Bytes :=
  match method with
  | .HMAC h => .ok (L.hmac h key (toBytes signingString))
  | _ => .error .ErrInvalidKeyType

/-- The method `Token.SignedString(key)` of the token `jwt.NewWithClaims(method, claims)` with
integer claims.  The token string is represented by what `Parser.ParseUnverified` reads in
it: the numbers of the claims are read as `float64`. -/
def SignedString (L : Lib) (method : SigningMethod) (claims : List (GoString × Int))
    (key : Bytes) : Except JwtError TokenString :=
  let sstr := L.SigningString method.Alg claims
  match Sign L method sstr key with
  | .error err => .error err
  | .ok sig =>
    .ok (.segments sstr (some method.Alg)
      (claims.map fun kv => (kv.1, Value.float64 (Float64.ofInt kv.2))) (some sig))

/-! ## `pkg/auth/auth_service.go` -/

/-- The conversion `int32(f)` of a `float64`: the fraction is discarded; outside the range of
`int32` the result is left to the implementation. -/
def int32 (L : Lib) (f : Float64) : Int :=
  if - 2 ^ 31 ≤ f.trunc ∧ f.trunc < 2 ^ 31 then f.trunc else L.int32OutOfRange f

/-- The method `AuthService.CheckToken(tokenString)`, returning the pair `(subject, err)`.
`secret` is the value of the environment variable `SECRET_KEY` (empty when unset) and `now`
the Unix time of the clock. -/
def CheckToken (L : Lib) (secret : GoString) (now : Int) (tokenString : TokenString) :
    Go (Option Int × Option JwtError) :=
  match Parse L now tokenString (toBytes secret) with
  | .error err => .ret (Option.none, some err)
  | .ok token =>
    if token.Valid then
      match token.Claims.lookup "sub".toList with
      | some (.float64 subFloat) => .ret (some (int32 L subFloat), Option.none)
      | Option.none =>
        .panics "interface conversion: interface \x7b\x7d is nil, not float64"
      | some _ => .panics "interface conversion: interface \x7b\x7d is not float64"
    else .ret (Option.none, Option.none)

/-- The claims that `CreateToken` passes to `jwt.NewWithClaims`; `now1` and `now2` are the
Unix times of the two calls of `time.Now()`, in the location `loc`. -/
def CreateClaims (loc : Location) (now1 now2 : Int) (id : Int) : List (GoString × Int) :=
  [("sub".toList, id), ("iat".toList, now1), ("exp".toList, AddDateUnix loc now2 15)]

/-- The method `AuthService.CreateToken(id)`, returning the pair `(token, err)`. -/
def CreateToken (L : Lib) (secret : GoString) (loc : Location) (now1 now2 : Int) (id : Int) :
    Option TokenString × Option JwtError :=
  match SignedString L (.HMAC .SHA256) (CreateClaims loc now1 now2 id) (toBytes secret) with
  | .error err => (Option.none, some err)
  | .ok tokenString => (some tokenString, Option.none)

/-! ## `pkg/auth/auth_controller.go` -/

/-- A Go `error` of the handlers: an error of the hasher, an error of the token library, the
value `errors.New(msg)`, or an error of a collaborator (request parsing, the users service). -/
inductive GoError
  | hasher (e : common.Error)
  | jwt (e : JwtError)
  | New (msg : String)
  | external (msg : String)
  deriving DecidableEq, Repr

/-- The struct `LoginBody`. -/
structure LoginBody where
  Email : GoString
  Password : GoString
  deriving DecidableEq, Repr

/-- The struct type `LoginBody` as `reflect` shows it: field names and `json` tags. -/
def LoginBodyType : List StructField :=
  [{ Name := "Email".toList, jsonTag := "email".toList },
   { Name := "Password".toList, jsonTag := "password".toList }]

/-- The struct `users.InternalUser`; `CreatedAt` is a Unix time. -/
structure InternalUser where
  ID : Int
  Username : GoString
  Email : GoString
  Password : GoString
  CreatedAt : Int
  deriving DecidableEq, Repr

/-- The interface `interfaces.AuthService`; a token is a string and a call may panic. -/
structure AuthService where
  CheckToken : GoString → Go (Option Int × Option GoError)
  CreateToken : Int → Go (Option GoString × Option GoError)

/-- The part of `users.UsersService` that `Login` uses: the user, or the error. -/
structure UsersService where
  GetUserByEmail : GoString → Go (Except GoError InternalUser)

/-- What `Login` reads from the request: the error of `ctx.Request.ParseForm()`, if any, and
the outcome of `ctx.ShouldBind(&body)`. -/
structure LoginRequest where
  ParseForm : Option GoError
  ShouldBind : BindResult LoginBody

/-- What a handler does to the response: `ctx.AbortWithError(code, err)`,
`ctx.AbortWithStatusJSON(code, errors)` with the body of `ValidateBody`, or
`ctx.JSON(code, gin.H)` with a message and a token (a `*string`, possibly nil). -/
inductive Response
  | AbortWithError (code : Nat) (err : GoError)
  | AbortWithStatusJSON (code : Nat) (errors : List ValidationErrorMessage)
  | JSON (code : Nat) (message : String) (token : Option GoString)
  deriving DecidableEq, Repr

/-- The handler `AuthController.Login`. -/
def Login (A : Argon2) (service : AuthService) (usersService : UsersService)
    (request : LoginRequest) : Go Response :=
  match request.ParseForm with
  | some err => .ret (.AbortWithError 500 err)
  | Option.none =>
    match ValidateBody LoginBodyType request.ShouldBind with
    | some errors => .ret (.AbortWithStatusJSON 400 errors)
    | Option.none =>
      let body := request.ShouldBind.body
      match usersService.GetUserByEmail body.Email with
      | .panics msg => .panics msg
      | .ret (.error err) => .ret (.AbortWithError 400 err)
      | .ret (.ok user) =>
        match Compare A body.Password user.Password with
        | .panics msg => .panics msg
        | .ret (_, some err) => .ret (.AbortWithError 500 (.hasher err))
        | .ret (true, Option.none) =>
          match service.CreateToken user.ID with
          | .panics msg => .panics msg
          | .ret (_, some err) => .ret (.AbortWithError 500 err)
          | .ret (token, Option.none) => .ret (.JSON 200 "Logged in successfully." token)
        | .ret (false, Option.none) =>
          .ret (.AbortWithError 401 (.New "The password provided is incorrect."))

/-! ## Concrete instances used to evaluate the definitions -/

/-- The service `mocks.MockUsersService` with the random source of its call of `Hash` fixed:
the user `user@example.com` has the password `password123`. -/
def MockUsersService (A : Argon2) (rand : Nat → Except Error Bytes) : UsersService where
  GetUserByEmail email :=
    if email = "user@example.com".toList then
      match Hash A rand "password123".toList with
      | .panics msg => .panics msg
      | .ret (password, _) =>
        .ret (.ok { ID := 1, Username := "user".toList, Email := "user@example.com".toList,
                    Password := password, CreatedAt := 0 })
    else .ret (.error (.New "user not found"))

/-- An authentication service whose every call panics. -/
def panickingAuthService : AuthService where
  CheckToken _ := .panics "CheckToken called"
  CreateToken _ := .panics "CreateToken called"

/-- A stand-in library: the HMAC is the list of the hash number, the sum of the key bytes and
the sum of the message bytes, the signing string lists the claims in decimal, and conversions
out of range give the smallest `int32`. -/
def sumLib : Lib where
  hmac h key msg :=
    [(match h with | .SHA256 => 1 | .SHA384 => 2 | .SHA512 => 3),
     UInt8.ofNat (key.map UInt8.toNat).sum, UInt8.ofNat (msg.map UInt8.toNat).sum]
  SigningString alg claims :=
    alg ++ ".".toList ++ (claims.map fun kv => kv.1 ++ fmtInteger kv.2.natAbs).flatten
  int32OutOfRange _ := - 2 ^ 31

/-- A location with summer time: two hours east of UTC before 29 October 2023, 01:00 UTC, one
hour east from then on. -/
def summerTime : Location :=
  fun t => if t < 1698541200 then { offset := 7200, start := - 2 ^ 63, stop := 1698541200 }
           else { offset := 3600, start := 1698541200, stop := 2 ^ 63 - 1 }

/-- A stand-in authentication service: `CreateToken` returns the text `token` for every id,
and `CheckToken` accepts that text alone, with the subject `id`. -/
def fixedAuthService (token : GoString) (id : Int) : AuthService where
  CheckToken t :=
    if t = token then .ret (some id, Option.none)
    else .ret (Option.none, some (.jwt .ErrTokenMalformed))
  CreateToken _ := .ret (some token, Option.none)

end auth

namespace middlewares

open common auth

/-! ## `internal/middlewares/auth_middleware.go` -/

/-- The part of a `*gin.Context` that the middleware changes: the keys set with `ctx.Set`,
latest first (the value the middleware stores is a `*int32`), the status of the response,
the errors attached with `ctx.Error`, and whether the chain of handlers was aborted. -/
structure Context where
  Keys : List (GoString × Option Int)
  Status : Nat
  Errors : List GoError
  Aborted : Bool
  deriving DecidableEq, Repr

/-- The method `ctx.AbortWithError(code, err)`: the status is written, the chain is aborted
and the error is attached. -/
def Context.AbortWithError (ctx : Context) (code : Nat) (err : GoError) : Context :=
  { ctx with Status := code, Aborted := true, Errors := ctx.Errors ++ [err] }

/-- The method `ctx.Set(key, value)`. -/
def Context.Set (ctx : Context) (key : GoString) (value : Option Int) : Context :=
  { ctx with Keys := (key, value) :: ctx.Keys }

/-- The method `ctx.Keys[key]` lookup, `ctx.Get(key)`. -/
def Context.Get (ctx : Context) (key : GoString) : Option (Option Int) :=
  ctx.Keys.lookup key

/-- A fresh context: no key, status 200, no error, not aborted. -/
def newContext : Context :=
  { Keys := [], Status := 200, Errors := [], Aborted := false }

/-- The function that `AuthMiddleware.Handler()` returns, run on the context `ctx` of a
request whose header `Authorization` has the value `authHeader` (empty when the header is
missing).  `Next` is `ctx.Next()`, the run of the handlers downstream; the calls of the
logger are left out. -/
def Handler (caseTable : Char → Char) (service : AuthService) (Next : Context → Go Context)
    (authHeader : GoString) (ctx : Context) : Go Context :=
  let authHeaderSplit := Split authHeader ' '
  if authHeaderSplit.length ≠ 2 ∨
      ToLower caseTable (authHeaderSplit.getD 0 []) ≠ "bearer".toList then
    .ret (ctx.AbortWithError 401
      (.New "An access token is required for accessing this data."))
  else
    let token := authHeaderSplit.getD 1 []
    match service.CheckToken token with
    | .panics msg => .panics msg
    | .ret (_, some err) => .ret (ctx.AbortWithError 500 err)
    | .ret (id, Option.none) => Next (ctx.Set "id".toList id)

/-- A downstream handler that records that it ran, by setting the status to 204. -/
def markingNext (ctx : Context) : Go Context :=
  .ret { ctx with Status := 204 }

/-- A downstream handler that panics when it is run. -/
def panickingNext (_ctx : Context) : Go Context :=
  .panics "Next called"

/-- An authentication service that panics with the token it was given. -/
def echoingAuthService : AuthService where
  CheckToken t := .panics (String.mk t)
  CreateToken _ := .panics "CreateToken called"

end middlewares

namespace common

/-! ## Lemmas on `strings.Split` -/

/-- The number of fields is the number of separators plus one. -/
theorem SplitLoop_length (sep : Char) (s cur : GoString) :
    (SplitLoop sep s cur).length = s.count sep + 1 := by
  induction s generalizing cur with
  | nil => simp [SplitLoop]
  | cons c cs ih =>
    by_cases h : c = sep
    · subst h; simp [SplitLoop, ih]
    · have h2 : ¬ (c == sep) = true := by simpa using h
      simp [SplitLoop, h, ih, List.count_cons, h2]

theorem SplitLoop_field (sep : Char) (a b cur : GoString) (ha : sep ∉ a) :
    SplitLoop sep (a ++ sep :: b) cur = (cur ++ a) :: SplitLoop sep b [] := by
  induction a generalizing cur with
  | nil => simp [SplitLoop]
  | cons c cs ih =>
    have hc : c ≠ sep := fun h => ha (by simp [h])
    have hcs : sep ∉ cs := fun h => ha (by simp [h])
    simp [SplitLoop, hc, ih _ hcs]

theorem SplitLoop_last (sep : Char) (a cur : GoString) (ha : sep ∉ a) :
    SplitLoop sep a cur = [cur ++ a] := by
  induction a generalizing cur with
  | nil => simp [SplitLoop]
  | cons c cs ih =>
    have hc : c ≠ sep := fun h => ha (by simp [h])
    have hcs : sep ∉ cs := fun h => ha (by simp [h])
    simp [SplitLoop, hc, ih _ hcs]

/-! ## Lemmas on base64 -/

theorem UInt8_ofNat_toNat (a : UInt8) : UInt8.ofNat a.toNat = a := by
  cases a with
  | mk v => simp [UInt8.ofNat, UInt8.toNat]

theorem UInt8_ofNat_eq (a : UInt8) (n : Nat) (h : n = a.toNat) : UInt8.ofNat n = a := by
  subst h; exact UInt8_ofNat_toNat a

theorem decodeMap_encodeChar_lt : ∀ n, n < 64 → decodeMap (encodeChar n) = some n := by
  decide

theorem decodeMap_encodeChar (n : Nat) : decodeMap (encodeChar (n % 64)) = some (n % 64) :=
  decodeMap_encodeChar_lt _ (Nat.mod_lt _ (by decide))

theorem encodeChar_mem (n : Nat) : encodeChar n ∈ encodeStd := by
  unfold encodeChar
  by_cases h : n < encodeStd.length
  · rw [List.getD_eq_getElem _ _ h]; exact List.getElem_mem _
  · rw [List.getD_eq_default _ _ (by omega)]; decide

theorem EncodeToString_mem (bs : Bytes) : ∀ c ∈ EncodeToString bs, c ∈ encodeStd := by
  induction bs using EncodeToString.induct with
  | case1 a b c rest ih =>
    intro x hx
    simp only [EncodeToString, List.mem_cons] at hx
    rcases hx with h | h | h | h | h
    · subst h; exact encodeChar_mem _
    · subst h; exact encodeChar_mem _
    · subst h; exact encodeChar_mem _
    · subst h; exact encodeChar_mem _
    · exact ih x h
  | case2 a b =>
    intro x hx
    simp only [EncodeToString, List.mem_cons, List.not_mem_nil, or_false] at hx
    rcases hx with h | h | h
    · subst h; exact encodeChar_mem _
    · subst h; exact encodeChar_mem _
    · subst h; exact encodeChar_mem _
  | case3 a =>
    intro x hx
    simp only [EncodeToString, List.mem_cons, List.not_mem_nil, or_false] at hx
    rcases hx with h | h
    · subst h; exact encodeChar_mem _
    · subst h; exact encodeChar_mem _
  | case4 => intro x hx; simp [EncodeToString] at hx

/-- The unpadded encoding of `n` bytes has `ceil(8 n / 6)` characters. -/
theorem EncodeToString_length (bs : Bytes) :
    (EncodeToString bs).length = (bs.length * 8 + 5) / 6 := by
  induction bs using EncodeToString.induct with
  | case1 a b c rest ih => simp only [EncodeToString, List.length_cons, ih]; omega
  | case2 a b => simp [EncodeToString]
  | case3 a => simp [EncodeToString]
  | case4 => simp [EncodeToString]

/-- The decoding loop, started between two quanta, appends the encoded bytes to `dst`. -/
theorem decodeLoop_EncodeToString (bs : Bytes) :
    ∀ si dst, decodeLoop (EncodeToString bs) si [] dst = .ok (dst ++ bs) := by
  induction bs using EncodeToString.induct with
  | case1 a b c rest ih =>
    intro si dst
    have ha := UInt8.toNat_lt a
    have hb := UInt8.toNat_lt b
    have hc := UInt8.toNat_lt c
    simp only [EncodeToString, decodeLoop, decodeMap_encodeChar, List.nil_append,
      List.singleton_append, List.cons_append, quantumVal]
    rw [ih]
    rw [UInt8_ofNat_eq a _ (by omega), UInt8_ofNat_eq b _ (by omega), UInt8_ofNat_eq c _ (by omega)]
    simp
  | case2 a b =>
    intro si dst
    have ha := UInt8.toNat_lt a
    have hb := UInt8.toNat_lt b
    simp only [EncodeToString, decodeLoop, decodeMap_encodeChar, List.nil_append,
      List.singleton_append, List.cons_append, quantumVal]
    rw [if_neg (by omega)]
    rw [UInt8_ofNat_eq a _ (by omega), UInt8_ofNat_eq b _ (by omega)]
  | case3 a =>
    intro si dst
    have ha := UInt8.toNat_lt a
    simp only [EncodeToString, decodeLoop, decodeMap_encodeChar, List.nil_append,
      List.singleton_append, List.cons_append, quantumVal]
    rw [if_neg (by omega)]
    rw [UInt8_ofNat_eq a _ (by omega)]
  | case4 => intro si dst; simp [EncodeToString, decodeLoop]

/-- Strict unpadded decoding inverts unpadded encoding. -/
theorem DecodeString_EncodeToString (bs : Bytes) : DecodeString (EncodeToString bs) = .ok bs := by
  simpa [DecodeString] using decodeLoop_EncodeToString bs 0 []

/-! ## Lemmas on decimal formatting and scanning -/

theorem fmtDigits_acc (fuel u : Nat) (acc : List Char) :
    fmtDigits fuel u acc = fmtDigits fuel u [] ++ acc := by
  induction fuel generalizing u acc with
  | zero => simp [fmtDigits]
  | succ fuel ih =>
    by_cases h : u < 10
    · simp [fmtDigits, h]
    · simp only [fmtDigits, h, if_false]
      rw [ih (u / 10) (_ :: acc), ih (u / 10) [_]]
      simp

theorem fmtDigits_fuel (fuel1 fuel2 u : Nat) (acc : List Char) (h1 : u < fuel1) (h2 : u < fuel2) :
    fmtDigits fuel1 u acc = fmtDigits fuel2 u acc := by
  induction fuel1 generalizing fuel2 u acc with
  | zero => omega
  | succ fuel1 ih =>
    cases fuel2 with
    | zero => omega
    | succ fuel2 =>
      by_cases h : u < 10
      · simp [fmtDigits, h]
      · simp only [fmtDigits, h, if_false]
        exact ih fuel2 (u / 10) _ (by omega) (by omega)

theorem fmtInteger_lt (u : Nat) (h : u < 10) : fmtInteger u = [Char.ofNat (48 + u)] := by
  simp [fmtInteger, fmtDigits, h]

theorem fmtInteger_ge (u : Nat) (h : 10 ≤ u) :
    fmtInteger u = fmtInteger (u / 10) ++ [Char.ofNat (48 + u % 10)] := by
  have h1 : ¬ u < 10 := by omega
  show fmtDigits (u + 1) u [] = fmtDigits (u / 10 + 1) (u / 10) [] ++ _
  rw [fmtDigits, if_neg h1, fmtDigits_acc]
  rw [fmtDigits_fuel u (u / 10 + 1) (u / 10) [] (by omega) (by omega)]

theorem digit_contains : ∀ u, u < 10 → decimalDigits.contains (Char.ofNat (48 + u)) = true := by
  decide

theorem digit_toNat : ∀ u, u < 10 → (Char.ofNat (48 + u)).toNat - 48 = u := by
  decide

theorem fmtInteger_digits (u : Nat) : ∀ c ∈ fmtInteger u, decimalDigits.contains c = true := by
  induction u using Nat.strong_induction_on with
  | _ u ih =>
    by_cases h : u < 10
    · rw [fmtInteger_lt u h]
      intro c hc
      simp only [List.mem_singleton] at hc
      subst hc
      exact digit_contains u h
    · rw [fmtInteger_ge u (by omega)]
      intro c hc
      rcases List.mem_append.1 hc with hc | hc
      · exact ih (u / 10) (by omega) c hc
      · simp only [List.mem_singleton] at hc
        subst hc
        exact digit_contains _ (Nat.mod_lt _ (by decide))

theorem fmtInteger_ne_nil (u : Nat) : fmtInteger u ≠ [] := by
  by_cases h : u < 10
  · rw [fmtInteger_lt u h]; simp
  · rw [fmtInteger_ge u (by omega)]; simp

theorem fmtInteger_length (k u : Nat) (h : u < 10 ^ (k + 1)) : (fmtInteger u).length ≤ k + 1 := by
  induction k generalizing u with
  | zero => rw [fmtInteger_lt u (by simpa using h)]; simp
  | succ k ih =>
    by_cases h10 : u < 10
    · rw [fmtInteger_lt u h10]; simp
    · rw [fmtInteger_ge u (by omega)]
      have : u / 10 < 10 ^ (k + 1) := by
        rw [Nat.div_lt_iff_lt_mul (by decide)]
        rw [pow_succ] at h
        exact h
      have := ih (u / 10) this
      simp only [List.length_append, List.length_singleton]
      omega

theorem ParseUintLoop_append (xs ys : List Char) (n : Nat) :
    ParseUintLoop (xs ++ ys) n =
      match ParseUintLoop xs n with
      | .ok n1 => ParseUintLoop ys n1
      | .error e => .error e := by
  induction xs generalizing n with
  | nil => simp [ParseUintLoop]
  | cons c cs ih =>
    simp only [List.cons_append, ParseUintLoop]
    split
    · split
      · rfl
      · exact ih _
    · rfl

theorem ParseUintLoop_fmtInteger (u : Nat) (h : u < 2 ^ 64) :
    ParseUintLoop (fmtInteger u) 0 = .ok u := by
  induction u using Nat.strong_induction_on with
  | _ u ih =>
    by_cases h10 : u < 10
    · rw [fmtInteger_lt u h10]
      simp only [ParseUintLoop, digit_contains u h10, digit_toNat u h10, if_true]
      rw [if_neg (by omega)]
      simp
    · rw [fmtInteger_ge u (by omega), ParseUintLoop_append, ih (u / 10) (by omega) (by omega)]
      have hd := Nat.mod_lt u (show 0 < 10 by decide)
      simp only [ParseUintLoop, digit_contains _ hd, digit_toNat _ hd, if_true]
      rw [if_neg (by omega)]
      congr 1
      omega

/-- The function `strconv.ParseUint` reads back what `%d` prints, below `2 ^ 64`. -/
theorem ParseUint_fmtInteger (u : Nat) (h : u < 2 ^ 64) : ParseUint (fmtInteger u) = .ok u := by
  simp [ParseUint, fmtInteger_ne_nil, ParseUintLoop_fmtInteger u h]

theorem digit_cases (c : Char) (h : decimalDigits.contains c = true) :
    c ≠ '\r' ∧ c ≠ '\n' ∧ isSpace c = false ∧ c ≠ '$' := by
  have hc : c ∈ decimalDigits := by simpa using h
  simp only [decimalDigits, String.toList, List.mem_cons, List.mem_singleton,
    List.not_mem_nil, or_false] at hc
  rcases hc with h | h | h | h | h | h | h | h | h | h <;> subst h <;> decide

theorem SkipSpace_digit (r : Char) (rest : List Char) (h : decimalDigits.contains r = true) :
    SkipSpace (r :: rest) = .ok (r :: rest) := by
  obtain ⟨h1, h2, h3, _⟩ := digit_cases r h
  simp [SkipSpace, h1, h2, h3]

theorem acceptAll_digits (ds buf rest : List Char)
    (hds : ∀ c ∈ ds, decimalDigits.contains c = true) (hrest : NoDigitAhead rest) :
    acceptAll decimalDigits buf (ds ++ rest) = (buf ++ ds, rest) := by
  induction ds generalizing buf with
  | nil =>
    cases rest with
    | nil => simp [acceptAll]
    | cons r rest =>
      have := hrest r (by simp)
      rw [List.nil_append, acceptAll, this]
      simp
  | cons d ds ih =>
    have hd := hds d (by simp)
    simp only [List.cons_append, acceptAll, hd, if_true, List.append_eq]
    rw [ih _ (fun c hc => hds c (by simp [hc]))]
    simp

theorem scanNumber_fmtInteger (u : Nat) (rest : List Char) (hrest : NoDigitAhead rest) :
    scanNumber decimalDigits [] (fmtInteger u ++ rest) = .ok (fmtInteger u, rest) := by
  have hds := fmtInteger_digits u
  have hne := fmtInteger_ne_nil u
  cases hf : fmtInteger u with
  | nil => exact absurd hf hne
  | cons d ds =>
    rw [hf] at hds
    have hd := hds d (by simp)
    simp only [List.cons_append, scanNumber, hd, if_true, List.nil_append]
    rw [acceptAll_digits ds [d] rest (fun c hc => hds c (by simp [hc])) hrest]
    simp

/-- Scanning an unsigned integer reads back what `%d` prints, when the value fits `bitSize`
bits and no digit follows. -/
theorem scanUint_fmtInteger (bitSize u : Nat) (rest : List Char) (hb : bitSize ≤ 64)
    (hu : u < 2 ^ bitSize) (hrest : NoDigitAhead rest) :
    scanUint bitSize (fmtInteger u ++ rest) = .ok (u, rest) := by
  have hds := fmtInteger_digits u
  have hne := fmtInteger_ne_nil u
  have h64 : u < 2 ^ 64 := lt_of_lt_of_le hu (Nat.pow_le_pow_right (by decide) hb)
  have hscan := scanNumber_fmtInteger u rest hrest
  cases hf : fmtInteger u with
  | nil => exact absurd hf hne
  | cons d ds =>
    rw [hf] at hds hscan
    have hd := hds d (by simp)
    have hp := ParseUint_fmtInteger u h64
    rw [hf] at hp
    simp only [List.cons_append] at hscan
    simp only [scanUint, List.cons_append, SkipSpace_digit d _ hd, hscan, hp,
      Nat.mod_eq_of_lt hu, if_true]

theorem doScanf_literal (c : Char) (format : List Char) (a : List Arg) (s : List Char)
    (vals : List Int) (hc : c ≠ '%') :
    doScanf (c :: format) a (c :: s) vals = doScanf format a s vals := by
  conv_lhs => rw [doScanf.eq_def]
  simp only [if_neg hc, advance, if_true]

theorem doScanf_verb (format : List Char) (arg : Arg) (a : List Arg) (s s1 s2 : List Char)
    (vals : List Int) (v : Int) (h1 : SkipSpace s = .ok s1) (h2 : scanOne arg s1 = .ok (v, s2)) :
    doScanf ('%' :: 'd' :: format) (arg :: a) s vals = doScanf format a s2 (vals ++ [v]) := by
  conv_lhs => rw [doScanf.eq_def]
  simp only [scanVerb, h1, h2, if_true]

theorem SkipSpace_fmtInteger (u : Nat) (rest : List Char) :
    SkipSpace (fmtInteger u ++ rest) = .ok (fmtInteger u ++ rest) := by
  have hds := fmtInteger_digits u
  cases hf : fmtInteger u with
  | nil => exact absurd hf (fmtInteger_ne_nil u)
  | cons d ds =>
    rw [hf] at hds
    exact SkipSpace_digit d _ (hds d (by simp))

theorem scanOne_uint32 (u : Nat) (rest : List Char) (hu : u < 2 ^ 32)
    (hrest : NoDigitAhead rest) :
    scanOne .uint32 (fmtInteger u ++ rest) = .ok ((u : Int), rest) := by
  simp only [scanOne, scanUint_fmtInteger 32 u rest (by decide) hu hrest]

theorem scanOne_uint8 (u : Nat) (rest : List Char) (hu : u < 2 ^ 8)
    (hrest : NoDigitAhead rest) :
    scanOne .uint8 (fmtInteger u ++ rest) = .ok ((u : Int), rest) := by
  simp only [scanOne, scanUint_fmtInteger 8 u rest (by decide) hu hrest]

theorem lit_m : "m=".toList = ['m', '='] := by decide

theorem lit_t : ",t=".toList = [',', 't', '='] := by decide

theorem lit_p : ",p=".toList = [',', 'p', '='] := by decide

theorem lit_format :
    "m=%d,t=%d,p=%d".toList =
      ['m', '=', '%', 'd', ',', 't', '=', '%', 'd', ',', 'p', '=', '%', 'd'] := by decide

/-- The scan of the parameter field reads back `m`, `t` and `p`. -/
theorem Sscanf_params (m t p : Nat) (hm : m < 2 ^ 32) (ht : t < 2 ^ 32) (hp : p < 2 ^ 8) :
    Sscanf ("m=".toList ++ fmtInteger m ++ ",t=".toList ++ fmtInteger t ++ ",p=".toList ++
        fmtInteger p) "m=%d,t=%d,p=%d".toList [.uint32, .uint32, .uint8] =
      .ok [(m : Int), (t : Int), (p : Int)] := by
  have lm := fmtInteger_length 9 m (by omega)
  have lt := fmtInteger_length 9 t (by omega)
  have lp := fmtInteger_length 2 p (by omega)
  unfold Sscanf
  rw [List.take_of_length_le (by simp [hugeWid]; omega)]
  rw [lit_m, lit_t, lit_p, lit_format]
  simp only [List.append_assoc, List.cons_append, List.nil_append]
  have nd : NoDigitAhead (',' :: 't' :: '=' :: (fmtInteger t ++
      (',' :: 'p' :: '=' :: fmtInteger p))) := by
    intro c hc; simp at hc; subst hc; decide
  have nd2 : NoDigitAhead (',' :: 'p' :: '=' :: fmtInteger p) := by
    intro c hc; simp at hc; subst hc; decide
  have nd3 : NoDigitAhead ([] : List Char) := by
    intro c hc; simp at hc
  rw [doScanf_literal _ _ _ _ _ (by decide), doScanf_literal _ _ _ _ _ (by decide)]
  rw [doScanf_verb _ _ _ _ _ _ _ _ (SkipSpace_fmtInteger m _) (scanOne_uint32 m _ hm nd)]
  rw [doScanf_literal _ _ _ _ _ (by decide), doScanf_literal _ _ _ _ _ (by decide),
    doScanf_literal _ _ _ _ _ (by decide)]
  rw [doScanf_verb _ _ _ _ _ _ _ _ (SkipSpace_fmtInteger t _) (scanOne_uint32 t _ ht nd2)]
  rw [doScanf_literal _ _ _ _ _ (by decide), doScanf_literal _ _ _ _ _ (by decide),
    doScanf_literal _ _ _ _ _ (by decide)]
  have e : fmtInteger p = fmtInteger p ++ [] := by simp
  rw [e, doScanf_verb _ _ _ _ _ _ _ _ (SkipSpace_fmtInteger p _) (scanOne_uint8 p _ hp nd3)]
  simp [doScanf]

/-! ## Lemmas on `subtle.ConstantTimeCompare` -/

theorem or_eq_zero (a b : Nat) : a ||| b = 0 ↔ a = 0 ∧ b = 0 := by
  constructor
  · intro h
    have ht : ∀ i, (a ||| b).testBit i = false := by intro i; rw [h]; simp
    constructor
    · apply Nat.eq_of_testBit_eq
      intro i
      have := ht i
      rw [Nat.testBit_or] at this
      simp only [Bool.or_eq_false_iff] at this
      simp [this.1]
    · apply Nat.eq_of_testBit_eq
      intro i
      have := ht i
      rw [Nat.testBit_or] at this
      simp only [Bool.or_eq_false_iff] at this
      simp [this.2]
  · rintro ⟨rfl, rfl⟩
    simp

theorem ConstantTimeByteEq_zero (v : Nat) (hv : v < 2 ^ 8) :
    ConstantTimeByteEq v 0 = 1 ↔ v = 0 := by
  unfold ConstantTimeByteEq
  rw [Nat.xor_zero]
  constructor
  · intro h
    by_contra hne
    have : (v + 2 ^ 32 - 1) % 2 ^ 32 = v - 1 := by omega
    rw [this] at h
    omega
  · rintro rfl
    decide

theorem fold_or_xor_lt (zs : List (UInt8 × UInt8)) (v : Nat) (hv : v < 2 ^ 8) :
    zs.foldl (fun v xy => v ||| (xy.1.toNat ^^^ xy.2.toNat)) v < 2 ^ 8 := by
  induction zs generalizing v with
  | nil => simpa using hv
  | cons z zs ih =>
    simp only [List.foldl_cons]
    exact ih _ (Nat.or_lt_two_pow hv
      (Nat.xor_lt_two_pow (UInt8.toNat_lt z.1) (UInt8.toNat_lt z.2)))

theorem fold_or_xor_eq_zero (zs : List (UInt8 × UInt8)) (v : Nat) :
    zs.foldl (fun v xy => v ||| (xy.1.toNat ^^^ xy.2.toNat)) v = 0 ↔
      v = 0 ∧ ∀ z ∈ zs, z.1 = z.2 := by
  induction zs generalizing v with
  | nil => simp
  | cons z zs ih =>
    simp only [List.foldl_cons, ih, or_eq_zero, Nat.xor_eq_zero, List.mem_cons, forall_eq_or_imp]
    constructor
    · rintro ⟨⟨h1, h2⟩, h3⟩
      exact ⟨h1, UInt8.ext h2, h3⟩
    · rintro ⟨h1, h2, h3⟩
      exact ⟨⟨h1, by rw [h2]⟩, h3⟩

theorem zip_forall_eq (x y : Bytes) (h : x.length = y.length) :
    (∀ z ∈ List.zip x y, z.1 = z.2) ↔ x = y := by
  induction x generalizing y with
  | nil =>
    cases y with
    | nil => simp
    | cons b y => simp at h
  | cons a x ih =>
    cases y with
    | nil => simp at h
    | cons b y =>
      simp only [List.length_cons, Nat.add_right_cancel_iff] at h
      simp only [List.zip_cons_cons, List.mem_cons, forall_eq_or_imp, ih y h, List.cons.injEq]

theorem compareLoop_reads (x y : Bytes) (n i v : Nat) (reads : List Nat) :
    (compareLoop x y n i v reads).2 = reads ++ List.range' i n := by
  induction n generalizing i v reads with
  | zero => simp [compareLoop]
  | succ n ih => simp [compareLoop, ih, List.range'_succ]

theorem compareLoop_value (x y : Bytes) (n i v : Nat) (reads : List Nat)
    (hx : i + n = x.length) (hy : i + n = y.length) :
    (compareLoop x y n i v reads).1 =
      (List.zip (x.drop i) (y.drop i)).foldl (fun v xy => v ||| (xy.1.toNat ^^^ xy.2.toNat)) v := by
  induction n generalizing i v reads with
  | zero =>
    have h1 : x.drop i = [] := List.drop_eq_nil_of_le (by omega)
    simp [compareLoop, h1]
  | succ n ih =>
    have hi : i < x.length := by omega
    have hj : i < y.length := by omega
    rw [List.drop_eq_getElem_cons hi, List.drop_eq_getElem_cons hj]
    simp only [compareLoop, List.zip_cons_cons, List.foldl_cons]
    rw [ih (i + 1) _ _ (by omega) (by omega), List.getD_eq_getElem x 0 hi,
      List.getD_eq_getElem y 0 hj]

/-- The value of `subtle.ConstantTimeCompare` as a fold over the pairs of bytes. -/
theorem ConstantTimeCompare_eq_fold (x y : Bytes) :
    ConstantTimeCompare x y =
      if x.length ≠ y.length then 0
      else
        ConstantTimeByteEq
          ((List.zip x y).foldl (fun v xy => v ||| (xy.1.toNat ^^^ xy.2.toNat)) 0) 0 := by
  unfold ConstantTimeCompare ConstantTimeCompareTrace
  by_cases h : x.length ≠ y.length
  · rw [if_pos h, if_pos h]
  · rw [if_neg h, if_neg h]
    simp only
    rw [compareLoop_value x y x.length 0 0 [] (by omega) (by omega)]
    rfl

/-- For slices of equal length the loop reads every index once, in order. -/
theorem ConstantTimeCompareTrace_reads (x y : Bytes) (h : x.length = y.length) :
    (ConstantTimeCompareTrace x y).2 = List.range x.length := by
  unfold ConstantTimeCompareTrace
  rw [if_neg (by omega)]
  simp only
  rw [compareLoop_reads, List.range_eq_range']
  rfl

/-- The function `subtle.ConstantTimeCompare` returns 1 exactly on equal slices. -/
theorem ConstantTimeCompare_eq_one (x y : Bytes) : ConstantTimeCompare x y = 1 ↔ x = y := by
  rw [ConstantTimeCompare_eq_fold]
  by_cases h : x.length = y.length
  · simp only [h, ne_eq, not_true_eq_false, if_false]
    rw [ConstantTimeByteEq_zero _ (fold_or_xor_lt _ 0 (by decide)), fold_or_xor_eq_zero,
      zip_forall_eq x y h]
    simp
  · simp only [ne_eq, h, not_false_eq_true, if_true]
    constructor
    · intro h0; omega
    · intro hxy; exact absurd (by rw [hxy]) h

/-! ## Lemmas on `decode`, `Hash` and `Compare` -/

theorem Split_six (f0 f1 f2 f3 f4 f5 : GoString) (h0 : '$' ∉ f0) (h1 : '$' ∉ f1)
    (h2 : '$' ∉ f2) (h3 : '$' ∉ f3) (h4 : '$' ∉ f4) (h5 : '$' ∉ f5) :
    Split (f0 ++ '$' :: (f1 ++ '$' :: (f2 ++ '$' :: (f3 ++ '$' :: (f4 ++ '$' :: f5))))) '$' =
      [f0, f1, f2, f3, f4, f5] := by
  unfold Split
  rw [SplitLoop_field _ _ _ _ h0, SplitLoop_field _ _ _ _ h1, SplitLoop_field _ _ _ _ h2,
    SplitLoop_field _ _ _ _ h3, SplitLoop_field _ _ _ _ h4, SplitLoop_last _ _ _ h5]
  simp

/-- The result of `decode` on a string of six fields that all parse. -/
theorem decode_of_fields (s f0 f1 f2 f3 f4 f5 : GoString) (m t p : Int) (salt hash : Bytes)
    (h : Split s '$' = [f0, f1, f2, f3, f4, f5])
    (hv : Sscanf f2 "v=%d".toList [.int] = .ok [19])
    (hp : Sscanf f3 "m=%d,t=%d,p=%d".toList [.uint32, .uint32, .uint8] = .ok [m, t, p])
    (hs : DecodeString f4 = .ok salt) (hk : DecodeString f5 = .ok hash) :
    decode s =
      .ok ({ memory := m.toNat, iterations := t.toNat, parallelism := p.toNat,
             saltLength := uint32 salt.length, keyLength := uint32 hash.length },
           salt, hash) := by
  simp only [String.toList] at hv hp
  simp [decode, h, hv, hp, hs, hk, argon2Version]

theorem fmtInteger_no_dollar (u : Nat) : '$' ∉ fmtInteger u := by
  intro h
  exact (digit_cases _ (fmtInteger_digits u _ h)).2.2.2 rfl

theorem EncodeToString_no_dollar (bs : Bytes) : '$' ∉ EncodeToString bs := by
  intro h
  have := EncodeToString_mem bs _ h
  revert this
  decide

theorem params_no_dollar (m t p : Nat) :
    '$' ∉ "m=".toList ++ fmtInteger m ++ ",t=".toList ++ fmtInteger t ++ ",p=".toList ++
      fmtInteger p := by
  have hm := fmtInteger_no_dollar m
  have ht := fmtInteger_no_dollar t
  have hp := fmtInteger_no_dollar p
  have h1 : '$' ∉ "m=".toList := by decide
  have h2 : '$' ∉ ",t=".toList := by decide
  have h3 : '$' ∉ ",p=".toList := by decide
  simp only [List.mem_append, not_or]
  exact ⟨⟨⟨⟨⟨h1, hm⟩, h2⟩, ht⟩, h3⟩, hp⟩

theorem Sprintf_fields (m t p : Nat) (b64Salt b64Hash : GoString) :
    Sprintf 19 m t p b64Salt b64Hash =
      [] ++ '$' :: ("argon2id".toList ++ '$' :: ("v=19".toList ++ '$' ::
        (("m=".toList ++ fmtInteger m ++ ",t=".toList ++ fmtInteger t ++ ",p=".toList ++
          fmtInteger p) ++ '$' :: (b64Salt ++ '$' :: b64Hash)))) := by
  have e1 : "$argon2id$v=".toList ++ fmtInteger 19 ++ "$m=".toList =
      '$' :: ("argon2id".toList ++ '$' :: ("v=19".toList ++ '$' :: "m=".toList)) := by decide
  have e2 : "$".toList = ['$'] := by decide
  unfold Sprintf
  rw [e1, e2]
  simp only [List.append_assoc, List.cons_append, List.nil_append]

theorem Split_Sprintf (m t p : Nat) (salt hash : Bytes) :
    Split (Sprintf 19 m t p (EncodeToString salt) (EncodeToString hash)) '$' =
      [[], "argon2id".toList, "v=19".toList,
        "m=".toList ++ fmtInteger m ++ ",t=".toList ++ fmtInteger t ++ ",p=".toList ++
          fmtInteger p, EncodeToString salt, EncodeToString hash] := by
  rw [Sprintf_fields]
  exact Split_six _ _ _ _ _ _ (by simp) (by decide) (by decide) (params_no_dollar m t p)
    (EncodeToString_no_dollar salt) (EncodeToString_no_dollar hash)

/-- The function `decode` inverts the format that `Hash` prints. -/
theorem decode_Sprintf (m t p : Nat) (salt hash : Bytes) (hm : m < 2 ^ 32) (ht : t < 2 ^ 32)
    (hp : p < 2 ^ 8) :
    decode (Sprintf 19 m t p (EncodeToString salt) (EncodeToString hash)) =
      .ok ({ memory := m, iterations := t, parallelism := p,
             saltLength := uint32 salt.length, keyLength := uint32 hash.length },
           salt, hash) := by
  have h := decode_of_fields _ _ _ _ _ _ _ m t p salt hash (Split_Sprintf m t p salt hash)
    (by decide) (Sscanf_params m t p hm ht hp) (DecodeString_EncodeToString salt)
    (DecodeString_EncodeToString hash)
  simpa using h

theorem generateRandomBytes_ok (rand : Nat → Except Error Bytes) (n : Nat) (salt : Bytes)
    (h : rand n = .ok salt) : generateRandomBytes rand n = .ok salt := by
  simp [generateRandomBytes, h]

/-- The function `argon2.IDKey` returns the derived key when its arguments are at least 1. -/
theorem IDKey_ret (A : Argon2) (password salt : Bytes) (time memory threads keyLen : Nat)
    (ht : 1 ≤ time) (hp : 1 ≤ threads) (hk : keyLen ≠ 0) :
    IDKey A password salt time memory threads keyLen =
      .ret (A.deriveKey password salt time memory threads keyLen) := by
  have h1 : ¬ time < 1 := by omega
  have h2 : ¬ threads < 1 := by omega
  simp [IDKey, h1, h2, hk]

/-- When `argon2.IDKey` returns, its arguments are at least 1 and the result is the derived
key. -/
theorem IDKey_ret_inv (A : Argon2) (password salt key : Bytes) (time memory threads keyLen : Nat)
    (h : IDKey A password salt time memory threads keyLen = .ret key) :
    1 ≤ time ∧ 1 ≤ threads ∧ keyLen ≠ 0 ∧
      key = A.deriveKey password salt time memory threads keyLen := by
  unfold IDKey at h
  split at h
  · cases h
  · split at h
    · cases h
    · split at h
      · cases h
      · cases h
        refine ⟨by omega, by omega, by assumption, rfl⟩

/-- The value of `Hash` when the random source returns `salt`. -/
theorem Hash_ok (A : Argon2) (rand : Nat → Except Error Bytes) (from_string : GoString)
    (salt : Bytes) (h : rand 16 = .ok salt) :
    Hash A rand from_string =
      .ret (Sprintf 19 65536 3 2 (EncodeToString salt)
        (EncodeToString (A.deriveKey (toBytes from_string) salt 3 65536 2 32)), none) := by
  have e : argon2Version.toNat = 19 := by decide
  simp [Hash, generateRandomBytes_ok rand 16 salt h, IDKey_ret, e]

/-- The method `Compare` in the form of its source: `decode`, `argon2.IDKey`, and the test
of `subtle.ConstantTimeCompare` against 1. -/
theorem Compare_eq (A : Argon2) (plaintext encodedHash : GoString) :
    Compare A plaintext encodedHash =
      match decode encodedHash with
      | .error err => .ret (false, some err)
      | .ok (params, salt, hash) =>
        match IDKey A (toBytes plaintext) salt params.iterations params.memory
            params.parallelism params.keyLength with
        | .panics msg => .panics msg
        | .ret otherHash =>
          if ConstantTimeCompare hash otherHash = 1 then .ret (true, none)
          else .ret (false, none) := by
  unfold Compare CompareTrace ConstantTimeCompare
  cases decode encodedHash with
  | error err => rfl
  | ok r =>
    obtain ⟨params, salt, hash⟩ := r
    simp only
    cases IDKey A (toBytes plaintext) salt params.iterations params.memory params.parallelism
        params.keyLength with
    | panics msg => rfl
    | ret otherHash =>
      by_cases e : (ConstantTimeCompareTrace hash otherHash).1 = 1
      · simp only [e, if_true]
      · simp only [e, if_false]

/-- The value of `Compare` on a decoded hash whose parameters `argon2.IDKey` accepts. -/
theorem Compare_of_decode (A : Argon2) (plaintext encodedHash : GoString) (params : Parameters)
    (salt hash : Bytes) (h : decode encodedHash = .ok (params, salt, hash))
    (ht : 1 ≤ params.iterations) (hp : 1 ≤ params.parallelism) (hk : params.keyLength ≠ 0) :
    Compare A plaintext encodedHash =
      .ret (decide (hash = A.deriveKey (toBytes plaintext) salt params.iterations params.memory
        params.parallelism params.keyLength), none) := by
  simp only [Compare_eq, h, IDKey_ret A _ _ _ _ _ _ ht hp hk, ConstantTimeCompare_eq_one]
  by_cases e : hash = A.deriveKey (toBytes plaintext) salt params.iterations params.memory
      params.parallelism params.keyLength
  · rw [if_pos e]; simp [e]
  · rw [if_neg e]; simp [e]

/-- The value of `Compare` on the encoding of a key derived from `P`: whether the key derived
from `Q` under the encoded parameters is the same. -/
theorem Compare_Sprintf_deriveKey (A : Argon2) (P Q : GoString) (salt : Bytes)
    (m t p keyLen : Nat) (hm : m < 2 ^ 32) (ht : t < 2 ^ 32) (hp : p < 2 ^ 8)
    (hk : keyLen < 2 ^ 32) (ht1 : 1 ≤ t) (hp1 : 1 ≤ p) (hk1 : keyLen ≠ 0) :
    Compare A Q (Sprintf 19 m t p (EncodeToString salt)
        (EncodeToString (A.deriveKey (toBytes P) salt t m p keyLen))) =
      .ret (decide (A.deriveKey (toBytes P) salt t m p keyLen =
        A.deriveKey (toBytes Q) salt t m p keyLen), none) := by
  have hl : uint32 (A.deriveKey (toBytes P) salt t m p keyLen).length = keyLen := by
    rw [A.deriveKey_length]; exact Nat.mod_eq_of_lt hk
  have hd := decode_Sprintf m t p salt (A.deriveKey (toBytes P) salt t m p keyLen) hm ht hp
  rw [hl] at hd
  rw [Compare_of_decode A Q _ _ _ _ hd ht1 hp1 hk1]

theorem encoding_eq_Sprintf (m t p : Nat) (b64Salt b64Hash : GoString) :
    "$argon2id$v=19$m=".toList ++ fmtInteger m ++ ",t=".toList ++ fmtInteger t ++
        ",p=".toList ++ fmtInteger p ++ "$".toList ++ b64Salt ++ "$".toList ++ b64Hash =
      Sprintf 19 m t p b64Salt b64Hash := by
  have e1 : "$argon2id$v=".toList ++ fmtInteger 19 ++ "$m=".toList =
      "$argon2id$v=19$m=".toList := by decide
  unfold Sprintf
  rw [e1]

theorem encodeStd_no_pad : '=' ∉ encodeStd := by decide

theorem EncodeToString_no_pad (bs : Bytes) : '=' ∉ EncodeToString bs :=
  fun h => encodeStd_no_pad (EncodeToString_mem bs _ h)

/-- A successful scan of the version field stores exactly one value. -/
theorem Sscanf_version_singleton (field : GoString) (vs : List Int)
    (h : Sscanf field "v=%d".toList [.int] = .ok vs) : ∃ v, vs = [v] := by
  have e : "v=%d".toList = ['v', '=', '%', 'd'] := by decide
  rw [e] at h
  unfold Sscanf at h
  generalize List.take hugeWid field = s at h
  rw [doScanf.eq_def] at h
  simp only [show ¬ ('v' = '%') by decide, if_false] at h
  cases h1 : advance 'v' s with
  | error e1 => simp [h1] at h
  | ok s1 =>
    simp only [h1] at h
    rw [doScanf.eq_def] at h
    simp only [show ¬ ('=' = '%') by decide, if_false] at h
    cases h2 : advance '=' s1 with
    | error e2 => simp [h2] at h
    | ok s2 =>
      simp only [h2] at h
      rw [doScanf.eq_def] at h
      simp only [if_true] at h
      cases h3 : scanVerb [.int] s2 with
      | error e3 => simp [h3] at h
      | ok r =>
        obtain ⟨v, a1, s3⟩ := r
        simp only [h3, List.nil_append] at h
        have ha : a1 = [] := by
          unfold scanVerb at h3
          split at h3
          · cases h3
          · split at h3
            · cases h3
            · split at h3
              · cases h3
              · rename_i heq _ _ _ _
                cases heq
                cases h3
                rfl
        subst ha
        rw [doScanf.eq_def] at h
        simp only [if_true] at h
        exact ⟨v, by cases h; rfl⟩

/-! ## The claims -/

/-- C1: for every plaintext `P` and every salt that the random source returns for the 16-byte
buffer, `Hash(P)` returns an encoded hash with a nil error and `Compare(P, Hash(P))` returns
`(true, nil)`. -/
theorem Compare_Hash_self (A : Argon2) (rand : Nat → Except Error Bytes) (P : GoString)
    (salt : Bytes) (h : rand 16 = .ok salt) :
    ∃ encodedHash, Hash A rand P = .ret (encodedHash, none) ∧
      Compare A P encodedHash = .ret (true, none) := by
  refine ⟨_, Hash_ok A rand P salt h, ?_⟩
  rw [Compare_Sprintf_deriveKey A P P salt 65536 3 2 32 (by decide) (by decide) (by decide)
    (by decide) (by decide) (by decide) (by decide)]
  simp

/-- Witness of C1: the plaintext of the test, the salt 7, 8, ..., 22. -/
theorem Compare_Hash_self_witness :
    countingRand 7 16 = .ok [7, 8, 9, 10, 11, 12, 13, 14, 15, 16, 17, 18, 19, 20, 21, 22] ∧
    ∃ encodedHash,
      Hash sumArgon2 (countingRand 7) "mySecretPassword".toList = .ret (encodedHash, none) ∧
      Compare sumArgon2 "mySecretPassword".toList encodedHash = .ret (true, none) :=
  ⟨by decide, Compare_Hash_self sumArgon2 (countingRand 7) "mySecretPassword".toList
    [7, 8, 9, 10, 11, 12, 13, 14, 15, 16, 17, 18, 19, 20, 21, 22] (by decide)⟩

/-- C2, amended: for every plaintext and every encoded hash that `decode` accepts and on
whose parsed parameters `argon2.IDKey` returns a key, that key is the one derived again from
the plaintext, the parsed salt and the parsed parameters, `Compare` returns a nil error, and
`matches` is true exactly when that key equals the parsed key; a non-match is
`(false, nil)`. -/
theorem Compare_matches_iff (A : Argon2) (plaintext encodedHash : GoString)
    (params : Parameters) (salt hash otherHash : Bytes)
    (h : decode encodedHash = .ok (params, salt, hash))
    (hk : IDKey A (toBytes plaintext) salt params.iterations params.memory params.parallelism
      params.keyLength = .ret otherHash) :
    otherHash = A.deriveKey (toBytes plaintext) salt params.iterations params.memory
        params.parallelism params.keyLength ∧
      Compare A plaintext encodedHash = .ret (decide (otherHash = hash), none) := by
  obtain ⟨ht, hp, hk0, he⟩ := IDKey_ret_inv A _ _ _ _ _ _ _ hk
  refine ⟨he, ?_⟩
  rw [Compare_of_decode A plaintext encodedHash params salt hash h ht hp hk0, he]
  congr 2
  exact decide_eq_decide.2 eq_comm

/-- Witness of C2: the encoded hash of the decoding test, which no plaintext matches under
the stand-in block function. -/
theorem Compare_matches_iff_witness :
    decode "$argon2id$v=19$m=65536,t=3,p=2$Zm9v$MTIzNDU2".toList =
      .ok ({ memory := 65536, iterations := 3, parallelism := 2, saltLength := 3,
             keyLength := 6 }, [102, 111, 111], [49, 50, 51, 52, 53, 54]) ∧
    IDKey sumArgon2 (toBytes "wrongPassword".toList) [102, 111, 111] 3 65536 2 6 =
      .ret (sumArgon2.deriveKey (toBytes "wrongPassword".toList) [102, 111, 111] 3 65536 2
        6) ∧
    Compare sumArgon2 "wrongPassword".toList
        "$argon2id$v=19$m=65536,t=3,p=2$Zm9v$MTIzNDU2".toList =
      .ret (decide (sumArgon2.deriveKey (toBytes "wrongPassword".toList) [102, 111, 111] 3 65536
        2 6 = [49, 50, 51, 52, 53, 54]), none) :=
  ⟨by decide, by decide,
   (Compare_matches_iff sumArgon2 "wrongPassword".toList
    "$argon2id$v=19$m=65536,t=3,p=2$Zm9v$MTIzNDU2".toList
    { memory := 65536, iterations := 3, parallelism := 2, saltLength := 3, keyLength := 6 }
    [102, 111, 111] [49, 50, 51, 52, 53, 54]
    (sumArgon2.deriveKey (toBytes "wrongPassword".toList) [102, 111, 111] 3 65536 2 6)
    (by decide) (by decide)).2⟩

/-- Counterexample to C2 as stated: `decode` accepts an encoding with `t=0`, and `Compare`
then does not return at all, because `argon2.IDKey` panics on a zero number of rounds. -/
theorem Compare_zero_rounds_panics :
    decode "$argon2id$v=19$m=65536,t=0,p=2$Zm9v$MTIzNDU2".toList =
      .ok ({ memory := 65536, iterations := 0, parallelism := 2, saltLength := 3,
             keyLength := 6 }, [102, 111, 111], [49, 50, 51, 52, 53, 54]) ∧
    Compare sumArgon2 "mySecretPassword".toList
        "$argon2id$v=19$m=65536,t=0,p=2$Zm9v$MTIzNDU2".toList =
      .panics "argon2: number of rounds too small" := by
  decide

/-- The function `decode` on the encoding format, with the two lengths as the source converts
them to `uint32`. -/
theorem decode_encoding_uint32 (m t p : Nat) (s k : Bytes) (hm : m < 2 ^ 32) (ht : t < 2 ^ 32)
    (hp : p < 2 ^ 8) :
    decode ("$argon2id$v=19$m=".toList ++ fmtInteger m ++ ",t=".toList ++ fmtInteger t ++
        ",p=".toList ++ fmtInteger p ++ "$".toList ++ EncodeToString s ++ "$".toList ++
        EncodeToString k) =
      .ok ({ memory := m, iterations := t, parallelism := p, saltLength := uint32 s.length,
             keyLength := uint32 k.length }, s, k) := by
  rw [encoding_eq_Sprintf, decode_Sprintf m t p s k hm ht hp]

/-- C3, counterexample: for the key `longKey` of `2 ^ 32 + 1` bytes, with salt `foo` and the
default parameters, `decode` succeeds on the encoding and returns the key, yet the key length
it returns is `uint32(2 ^ 32 + 1) = 1` and not the length of the key. -/
theorem decode_longKey_keyLength :
    longKeyHash = "$argon2id$v=19$m=".toList ++ fmtInteger 65536 ++ ",t=".toList ++
        fmtInteger 3 ++ ",p=".toList ++ fmtInteger 2 ++ "$".toList ++
        EncodeToString [102, 111, 111] ++ "$".toList ++ EncodeToString longKey ∧
    decode longKeyHash =
      .ok ({ memory := 65536, iterations := 3, parallelism := 2, saltLength := 3,
             keyLength := 1 }, [102, 111, 111], longKey) ∧
    longKey.length = 2 ^ 32 + 1 := by
  have hl : longKey.length = 2 ^ 32 + 1 := List.length_replicate _ _
  have hu : uint32 longKey.length = 1 := by rw [hl]; rfl
  have hd := decode_Sprintf 65536 3 2 [102, 111, 111] longKey (by decide) (by decide)
    (by decide)
  rw [hu] at hd
  exact ⟨(encoding_eq_Sprintf 65536 3 2 _ _).symm, hd, hl⟩

/-- C3, amended: `decode` inverts the encoding format.  For `m` and `t` in the range of
`uint32`, `p` in the range of `uint8`, and every salt `s` and key `k` shorter than `2 ^ 32`
bytes, decoding `$argon2id$v=19$m=<m>,t=<t>,p=<p>$<base64 s>$<base64 k>` succeeds with
parameters `m`, `t`, `p`, salt `s` and key `k`, and `saltLength` and `keyLength` are the
lengths of `s` and `k`. -/
theorem decode_encoding (m t p : Nat) (s k : Bytes) (hm : m < 2 ^ 32) (ht : t < 2 ^ 32)
    (hp : p < 2 ^ 8) (hs : s.length < 2 ^ 32) (hk : k.length < 2 ^ 32) :
    decode ("$argon2id$v=19$m=".toList ++ fmtInteger m ++ ",t=".toList ++ fmtInteger t ++
        ",p=".toList ++ fmtInteger p ++ "$".toList ++ EncodeToString s ++ "$".toList ++
        EncodeToString k) =
      .ok ({ memory := m, iterations := t, parallelism := p, saltLength := s.length,
             keyLength := k.length }, s, k) := by
  rw [decode_encoding_uint32 m t p s k hm ht hp]
  unfold uint32
  rw [Nat.mod_eq_of_lt hs, Nat.mod_eq_of_lt hk]

/-- Witness of C3: the encoded hash of the decoding test, with salt `foo` and key `123456`. -/
theorem decode_encoding_witness :
    decode "$argon2id$v=19$m=65536,t=3,p=2$Zm9v$MTIzNDU2".toList =
      .ok ({ memory := 65536, iterations := 3, parallelism := 2, saltLength := 3,
             keyLength := 6 }, [102, 111, 111], [49, 50, 51, 52, 53, 54]) :=
  decode_encoding 65536 3 2 [102, 111, 111] [49, 50, 51, 52, 53, 54] (by decide) (by decide)
    (by decide) (by decide) (by decide)

/-- C4: `decode` fails with `InvalidHashException` exactly for the strings that do not split
on `$` into 6 fields, and the number of fields is the number of `$` characters plus one. -/
theorem decode_InvalidHashException_iff (s : GoString) :
    (Split s '$').length = s.count '$' + 1 ∧
    (decode s = .error .InvalidHashException ↔ (Split s '$').length ≠ 6) := by
  refine ⟨SplitLoop_length _ _ _, ?_⟩
  by_cases h : (Split s '$').length = 6
  · simp only [decode, h, ne_eq, not_true_eq_false, if_false, iff_false]
    split
    · simp
    · split
      · simp
      · split
        · simp
        · split
          · simp
          · split <;> simp
  · simp [decode, h]

/-- Witness of C4: the two strings of the tests are rejected with `InvalidHashException`, and
a string of 6 fields with an unreadable version fails with another error. -/
theorem decode_InvalidHashException_witness :
    decode "invalidHash".toList = .error .InvalidHashException ∧
    decode "$argon2id$v=19$m=65536,t=3,p=2$Zm9v".toList = .error .InvalidHashException ∧
    decode "$argon2id$v=$m=65536,t=3,p=2$Zm9v$MTIzNDU2".toList ≠
      .error .InvalidHashException :=
  ⟨(decode_InvalidHashException_iff _).2.2 (by decide),
   (decode_InvalidHashException_iff _).2.2 (by decide),
   fun h => (decode_InvalidHashException_iff _).2.1 h (by decide)⟩

/-- C5, counterexample: a string of 6 fields whose version field, `v=99999999999999999999`,
differs from version 19 but is beyond the range of `int`: `fmt.Sscanf` fails on it and
`decode` returns that error, not `IncompatibleVersionException`. -/
theorem decode_version_out_of_range :
    (Split "$argon2id$v=99999999999999999999$m=65536,t=3,p=2$Zm9v$MTIzNDU2".toList
      '$').length = 6 ∧
    decode "$argon2id$v=99999999999999999999$m=65536,t=3,p=2$Zm9v$MTIzNDU2".toList =
      .error (.scan (.num "ParseInt" "99999999999999999999".toList .ErrRange)) ∧
    decode "$argon2id$v=99999999999999999999$m=65536,t=3,p=2$Zm9v$MTIzNDU2".toList ≠
      .error .IncompatibleVersionException := by
  decide

/-- C5, amended: for every string of 6 fields whose version field scans to an integer other
than 19, `decode` fails with `IncompatibleVersionException`, by exact equality and whatever
the other fields contain. -/
theorem decode_IncompatibleVersionException (s : GoString) (v : Int)
    (h6 : (Split s '$').length = 6)
    (hv : Sscanf ((Split s '$').getD 2 []) "v=%d".toList [.int] = .ok [v])
    (hne : v ≠ 19) :
    decode s = .error .IncompatibleVersionException := by
  unfold decode
  simp only [h6, ne_eq, not_true_eq_false, if_false, hv, argon2Version]
  simp [hne]

/-- Witness of C5: version 18 (the string of the test), and version 20 with fields that are
not well formed. -/
theorem decode_IncompatibleVersionException_witness :
    decode "$argon2id$v=18$m=65536,t=3,p=2$Zm9v$MTIzNDU2".toList =
      .error .IncompatibleVersionException ∧
    decode "$argon2id$v=20$m=x$=$=".toList = .error .IncompatibleVersionException :=
  ⟨decode_IncompatibleVersionException _ 18 (by decide) (by decide) (by decide),
   decode_IncompatibleVersionException _ 20 (by decide) (by decide) (by decide)⟩

/-- C6: every string that `Hash` returns without error is
`$argon2id$v=19$m=65536,t=3,p=2$<salt>$<key>`.  It splits on `$` into exactly 6 fields, the
salt field is the 22-character unpadded standard base64 of the 16-byte salt, the key field is
the 43-character unpadded standard base64 of the 32-byte derived key, the string is 97
characters long, the salt and key fields contain no `=`, and the parameters are the fixed
defaults. -/
theorem Hash_format (A : Argon2) (rand : Nat → Except Error Bytes) (P encodedHash : GoString)
    (hr : ∀ salt, rand 16 = .ok salt → salt.length = 16)
    (h : Hash A rand P = .ret (encodedHash, none)) :
    ∃ salt key : Bytes,
      rand 16 = .ok salt ∧ salt.length = 16 ∧
      key = A.deriveKey (toBytes P) salt 3 65536 2 32 ∧ key.length = 32 ∧
      encodedHash = "$argon2id$v=19$m=65536,t=3,p=2$".toList ++ EncodeToString salt ++
        "$".toList ++ EncodeToString key ∧
      Split encodedHash '$' = ["".toList, "argon2id".toList, "v=19".toList,
        "m=65536,t=3,p=2".toList, EncodeToString salt, EncodeToString key] ∧
      (EncodeToString salt).length = 22 ∧ (EncodeToString key).length = 43 ∧
      encodedHash.length = 97 ∧
      (∀ c ∈ EncodeToString salt ++ EncodeToString key, c ∈ encodeStd) ∧
      '=' ∉ EncodeToString salt ∧ '=' ∉ EncodeToString key ∧
      decode encodedHash =
        .ok ({ memory := 65536, iterations := 3, parallelism := 2, saltLength := 16,
               keyLength := 32 }, salt, key) := by
  cases hrand : rand 16 with
  | error err =>
    simp [Hash, generateRandomBytes, hrand] at h
  | ok salt =>
    have hs := hr salt hrand
    have hk := A.deriveKey_length (toBytes P) salt 3 65536 2 32
    rw [Hash_ok A rand P salt hrand] at h
    have he : encodedHash = Sprintf 19 65536 3 2 (EncodeToString salt)
        (EncodeToString (A.deriveKey (toBytes P) salt 3 65536 2 32)) := by
      cases h; rfl
    have hls : (EncodeToString salt).length = 22 := by rw [EncodeToString_length, hs]
    have hlk : (EncodeToString (A.deriveKey (toBytes P) salt 3 65536 2 32)).length = 43 := by
      rw [EncodeToString_length, hk]
    have hlit : Sprintf 19 65536 3 2 (EncodeToString salt)
        (EncodeToString (A.deriveKey (toBytes P) salt 3 65536 2 32)) =
        "$argon2id$v=19$m=65536,t=3,p=2$".toList ++ EncodeToString salt ++ "$".toList ++
          EncodeToString (A.deriveKey (toBytes P) salt 3 65536 2 32) := by
      have e1 : "$argon2id$v=".toList ++ fmtInteger 19 ++ "$m=".toList ++ fmtInteger 65536 ++
          ",t=".toList ++ fmtInteger 3 ++ ",p=".toList ++ fmtInteger 2 ++ "$".toList =
          "$argon2id$v=19$m=65536,t=3,p=2$".toList := by decide
      unfold Sprintf
      rw [e1]
    have hsplit := Split_Sprintf 65536 3 2 salt (A.deriveKey (toBytes P) salt 3 65536 2 32)
    have e2 : "m=".toList ++ fmtInteger 65536 ++ ",t=".toList ++ fmtInteger 3 ++ ",p=".toList ++
        fmtInteger 2 = "m=65536,t=3,p=2".toList := by decide
    have e3 : ([] : GoString) = "".toList := by decide
    rw [e2, e3] at hsplit
    have hdec := decode_Sprintf 65536 3 2 salt (A.deriveKey (toBytes P) salt 3 65536 2 32)
      (by decide) (by decide) (by decide)
    rw [hs, hk] at hdec
    have e16 : uint32 16 = 16 := by decide
    have e32 : uint32 32 = 32 := by decide
    rw [e16, e32] at hdec
    refine ⟨salt, _, rfl, hs, rfl, hk, he.trans hlit, he ▸ hsplit, hls, hlk, ?_, ?_,
      EncodeToString_no_pad _, EncodeToString_no_pad _, he ▸ hdec⟩
    · rw [he, hlit]
      simp only [List.length_append, hls, hlk]
      decide
    · intro c hc
      rcases List.mem_append.1 hc with hc | hc
      · exact EncodeToString_mem _ c hc
      · exact EncodeToString_mem _ c hc

/-- Witness of C6: the plaintext of the test with the salt 7, 8, ..., 22. -/
theorem Hash_format_witness :
    Hash sumArgon2 (countingRand 7) "mySecretPassword".toList =
      .ret (("$argon2id$v=19$m=65536,t=3,p=2$BwgJCgsMDQ4PEBESExQVFg$" ++
        "jI2Oj5CRkpOUlZaXmJmam5ydnp+goaKjpKWmp6ipqqs").toList, none) ∧
    ∃ salt key : Bytes,
      countingRand 7 16 = .ok salt ∧ salt.length = 16 ∧
      key = sumArgon2.deriveKey (toBytes "mySecretPassword".toList) salt 3 65536 2 32 ∧
      key.length = 32 ∧
      ("$argon2id$v=19$m=65536,t=3,p=2$BwgJCgsMDQ4PEBESExQVFg$" ++
        "jI2Oj5CRkpOUlZaXmJmam5ydnp+goaKjpKWmp6ipqqs").toList =
        "$argon2id$v=19$m=65536,t=3,p=2$".toList ++ EncodeToString salt ++
        "$".toList ++ EncodeToString key ∧
      Split ("$argon2id$v=19$m=65536,t=3,p=2$BwgJCgsMDQ4PEBESExQVFg$" ++
        "jI2Oj5CRkpOUlZaXmJmam5ydnp+goaKjpKWmp6ipqqs").toList '$' =
        ["".toList, "argon2id".toList, "v=19".toList,
        "m=65536,t=3,p=2".toList, EncodeToString salt, EncodeToString key] ∧
      (EncodeToString salt).length = 22 ∧ (EncodeToString key).length = 43 ∧
      ("$argon2id$v=19$m=65536,t=3,p=2$BwgJCgsMDQ4PEBESExQVFg$" ++
        "jI2Oj5CRkpOUlZaXmJmam5ydnp+goaKjpKWmp6ipqqs").toList.length = 97 ∧
      (∀ c ∈ EncodeToString salt ++ EncodeToString key, c ∈ encodeStd) ∧
      '=' ∉ EncodeToString salt ∧ '=' ∉ EncodeToString key ∧
      decode ("$argon2id$v=19$m=65536,t=3,p=2$BwgJCgsMDQ4PEBESExQVFg$" ++
        "jI2Oj5CRkpOUlZaXmJmam5ydnp+goaKjpKWmp6ipqqs").toList =
        .ok ({ memory := 65536, iterations := 3, parallelism := 2, saltLength := 16,
               keyLength := 32 }, salt, key) :=
  ⟨by decide, Hash_format sumArgon2 (countingRand 7) "mySecretPassword".toList _
    (by intro salt h; cases h; decide) (by decide)⟩

/-- C7: when the two calls of `Hash(P)` draw distinct salts, both return an encoded hash with
a nil error, the two encoded hashes are different, and `Compare(P, ·)` returns `(true, nil)`
on each of them. -/
theorem Hash_twice (A : Argon2) (rand1 rand2 : Nat → Except Error Bytes) (P : GoString)
    (salt1 salt2 : Bytes) (h1 : rand1 16 = .ok salt1) (h2 : rand2 16 = .ok salt2)
    (hne : salt1 ≠ salt2) :
    ∃ e1 e2, Hash A rand1 P = .ret (e1, none) ∧ Hash A rand2 P = .ret (e2, none) ∧ e1 ≠ e2 ∧
      Compare A P e1 = .ret (true, none) ∧ Compare A P e2 = .ret (true, none) := by
  refine ⟨_, _, Hash_ok A rand1 P salt1 h1, Hash_ok A rand2 P salt2 h2, ?_, ?_, ?_⟩
  · intro he
    have d1 := decode_Sprintf 65536 3 2 salt1 (A.deriveKey (toBytes P) salt1 3 65536 2 32)
      (by decide) (by decide) (by decide)
    have d2 := decode_Sprintf 65536 3 2 salt2 (A.deriveKey (toBytes P) salt2 3 65536 2 32)
      (by decide) (by decide) (by decide)
    rw [he, d2] at d1
    simp only [Except.ok.injEq, Prod.mk.injEq] at d1
    exact hne d1.2.1.symm
  · rw [Compare_Sprintf_deriveKey A P P salt1 65536 3 2 32 (by decide) (by decide) (by decide)
      (by decide) (by decide) (by decide) (by decide)]
    simp
  · rw [Compare_Sprintf_deriveKey A P P salt2 65536 3 2 32 (by decide) (by decide) (by decide)
      (by decide) (by decide) (by decide) (by decide)]
    simp

/-- Witness of C7: the plaintext of the test with the salts 7, ..., 22 and 100, ..., 115. -/
theorem Hash_twice_witness :
    countingRand 7 16 = .ok [7, 8, 9, 10, 11, 12, 13, 14, 15, 16, 17, 18, 19, 20, 21, 22] ∧
    countingRand 100 16 =
      .ok [100, 101, 102, 103, 104, 105, 106, 107, 108, 109, 110, 111, 112, 113, 114, 115] ∧
    ∃ e1 e2, Hash sumArgon2 (countingRand 7) "mySecretPassword".toList = .ret (e1, none) ∧
      Hash sumArgon2 (countingRand 100) "mySecretPassword".toList = .ret (e2, none) ∧ e1 ≠ e2 ∧
      Compare sumArgon2 "mySecretPassword".toList e1 = .ret (true, none) ∧
      Compare sumArgon2 "mySecretPassword".toList e2 = .ret (true, none) :=
  ⟨by decide, by decide,
   Hash_twice sumArgon2 (countingRand 7) (countingRand 100) "mySecretPassword".toList
    [7, 8, 9, 10, 11, 12, 13, 14, 15, 16, 17, 18, 19, 20, 21, 22]
    [100, 101, 102, 103, 104, 105, 106, 107, 108, 109, 110, 111, 112, 113, 114, 115]
    (by decide) (by decide) (by decide)⟩

/-- C8: for plaintexts `P` and `Q` on which the KDF does not collide under the salt drawn by
`Hash` and the default parameters, `Hash(P)` returns an encoded hash with a nil error and
`Compare(Q, Hash(P))` returns `(false, nil)`. -/
theorem Compare_Hash_other (A : Argon2) (rand : Nat → Except Error Bytes) (P Q : GoString)
    (salt : Bytes) (h : rand 16 = .ok salt)
    (hkdf : A.deriveKey (toBytes P) salt 3 65536 2 32 ≠ A.deriveKey (toBytes Q) salt 3 65536 2 32) :
    ∃ encodedHash, Hash A rand P = .ret (encodedHash, none) ∧
      Compare A Q encodedHash = .ret (false, none) := by
  refine ⟨_, Hash_ok A rand P salt h, ?_⟩
  rw [Compare_Sprintf_deriveKey A P Q salt 65536 3 2 32 (by decide) (by decide) (by decide)
    (by decide) (by decide) (by decide) (by decide)]
  simp [hkdf]

/-- Witness of C8: `P` and `Q` are the two passwords of the test. -/
theorem Compare_Hash_other_witness :
    countingRand 7 16 = .ok [7, 8, 9, 10, 11, 12, 13, 14, 15, 16, 17, 18, 19, 20, 21, 22] ∧
    ∃ encodedHash,
      Hash sumArgon2 (countingRand 7) "mySecretPassword".toList = .ret (encodedHash, none) ∧
      Compare sumArgon2 "wrongPassword".toList encodedHash = .ret (false, none) :=
  ⟨by decide, Compare_Hash_other sumArgon2 (countingRand 7) "mySecretPassword".toList
    "wrongPassword".toList [7, 8, 9, 10, 11, 12, 13, 14, 15, 16, 17, 18, 19, 20, 21, 22]
    (by decide) (by decide)⟩

/-- C9: `Compare` derives the candidate key with the parameters of the stored encoding.  For
`m`, `t`, `keyLen` in the range of `uint32` and `p` in the range of `uint8`, if `argon2.IDKey`
derives `key` from `P` and `salt` under `(t, m, p, keyLen)`, then `Compare(P, e)` returns
`(true, nil)` for the encoding `e` of `m`, `t`, `p`, `salt` and `key`. -/
theorem Compare_uses_encoded_parameters (A : Argon2) (P : GoString) (salt key : Bytes)
    (m t p keyLen : Nat) (hm : m < 2 ^ 32) (ht : t < 2 ^ 32) (hp : p < 2 ^ 8)
    (hk : keyLen < 2 ^ 32) (hkey : IDKey A (toBytes P) salt t m p keyLen = .ret key) :
    Compare A P ("$argon2id$v=19$m=".toList ++ fmtInteger m ++ ",t=".toList ++ fmtInteger t ++
        ",p=".toList ++ fmtInteger p ++ "$".toList ++ EncodeToString salt ++ "$".toList ++
        EncodeToString key) = .ret (true, none) := by
  obtain ⟨ht1, hp1, hk1, rfl⟩ := IDKey_ret_inv A _ _ _ _ _ _ _ hkey
  rw [encoding_eq_Sprintf,
    Compare_Sprintf_deriveKey A P P salt m t p keyLen hm ht hp hk ht1 hp1 hk1]
  simp

/-- Witness of C9: memory 1024, one round, four lanes, a 3-byte salt and an 8-byte key. -/
theorem Compare_uses_encoded_parameters_witness :
    IDKey sumArgon2 (toBytes "pw".toList) [1, 2, 3] 1 1024 4 8 =
      .ret [242, 243, 244, 245, 246, 247, 248, 249] ∧
    Compare sumArgon2 "pw".toList "$argon2id$v=19$m=1024,t=1,p=4$AQID$8vP09fb3+Pk".toList =
      .ret (true, none) :=
  ⟨by decide, Compare_uses_encoded_parameters sumArgon2 "pw".toList [1, 2, 3]
    [242, 243, 244, 245, 246, 247, 248, 249] 1024 1 4 8 (by decide) (by decide) (by decide)
    (by decide) (by decide)⟩

theorem UInt8_toNat_ofNat (n : Nat) : (UInt8.ofNat n).toNat = n % 256 := by
  simp [UInt8.ofNat, UInt8.toNat]

theorem decodeMap_some (c : Char) (v : Nat) (h : decodeMap c = some v) :
    v < 64 ∧ encodeChar v = c ∧ c ≠ '\n' ∧ c ≠ '\r' := by
  unfold decodeMap at h
  simp only at h
  split at h
  · rename_i hlt
    cases h
    have hlen : encodeStd.length = 64 := by decide
    have hl : List.indexOf c encodeStd < encodeStd.length := by omega
    have hc : encodeChar (List.indexOf c encodeStd) = c := by
      unfold encodeChar
      rw [List.getD_eq_getElem _ _ hl]
      exact List.getElem_indexOf hl
    have hmem : c ∈ encodeStd := List.indexOf_lt_length.1 hl
    refine ⟨hlt, hc, ?_, ?_⟩
    · intro e; subst e; revert hmem; decide
    · intro e; subst e; revert hmem; decide
  · cases h

theorem stripNewlines_cons_keep (c : Char) (s : GoString) (h1 : c ≠ '\n') (h2 : c ≠ '\r') :
    stripNewlines (c :: s) = c :: stripNewlines s := by
  simp [stripNewlines, List.filter_cons, h1, h2]

theorem stripNewlines_cons_skip (c : Char) (s : GoString) (h : c = '\n' ∨ c = '\r') :
    stripNewlines (c :: s) = stripNewlines s := by
  rcases h with h | h <;> subst h <;> simp [stripNewlines, List.filter_cons]

/-- Every input that the decoding loop accepts is, without its new-line characters and after
the characters of the quantum being read, the unpadded encoding of the bytes it appends. -/
theorem decodeLoop_ok (src : List Char) :
    ∀ (si : Nat) (dbuf : List Nat) (dst out : Bytes), decodeLoop src si dbuf dst = .ok out →
      dbuf.length ≤ 3 → (∀ d ∈ dbuf, d < 64) →
      ∃ bs, out = dst ++ bs ∧ EncodeToString bs = dbuf.map encodeChar ++ stripNewlines src := by
  induction src with
  | nil =>
    intro si dbuf dst out h hlen hd
    match dbuf, hlen, hd with
    | [], _, _ =>
      simp only [decodeLoop, Except.ok.injEq] at h
      exact ⟨[], by simp [h], by simp [EncodeToString, stripNewlines]⟩
    | [d0], _, _ => simp [decodeLoop] at h
    | [d0, d1], _, hd =>
      have h0 := hd d0 (by simp)
      have h1 := hd d1 (by simp)
      simp only [decodeLoop, quantumVal] at h
      split at h
      · cases h
      · rename_i hs
        simp only [Except.ok.injEq] at h
        refine ⟨_, h.symm, ?_⟩
        simp only [EncodeToString, UInt8_toNat_ofNat, List.map_cons, List.map_nil, stripNewlines,
          List.filter_nil, List.append_nil]
        exact List.cons_eq_cons.2 ⟨congrArg encodeChar (by omega),
          List.cons_eq_cons.2 ⟨congrArg encodeChar (by omega), rfl⟩⟩
    | [d0, d1, d2], _, hd =>
      have h0 := hd d0 (by simp)
      have h1 := hd d1 (by simp)
      have h2 := hd d2 (by simp)
      simp only [decodeLoop, quantumVal] at h
      split at h
      · cases h
      · rename_i hs
        simp only [Except.ok.injEq] at h
        refine ⟨_, h.symm, ?_⟩
        simp only [EncodeToString, UInt8_toNat_ofNat, List.map_cons, List.map_nil, stripNewlines,
          List.filter_nil, List.append_nil]
        exact List.cons_eq_cons.2 ⟨congrArg encodeChar (by omega),
          List.cons_eq_cons.2 ⟨congrArg encodeChar (by omega),
            List.cons_eq_cons.2 ⟨congrArg encodeChar (by omega), rfl⟩⟩⟩
    | _ :: _ :: _ :: _ :: _, hlen, _ => simp at hlen
  | cons c src ih =>
    intro si dbuf dst out h hlen hd
    rw [decodeLoop] at h
    cases hm : decodeMap c with
    | none =>
      simp only [hm] at h
      split at h
      · rename_i hnl
        obtain ⟨bs, hbs, henc⟩ := ih _ _ _ _ h hlen hd
        exact ⟨bs, hbs, by rw [henc, stripNewlines_cons_skip c src hnl]⟩
      · cases h
    | some v =>
      obtain ⟨hv, hc, hn1, hn2⟩ := decodeMap_some c v hm
      simp only [hm] at h
      rw [stripNewlines_cons_keep c src hn1 hn2]
      match dbuf, hlen, hd with
      | [], _, _ =>
        simp only [List.nil_append] at h
        obtain ⟨bs, hbs, henc⟩ := ih _ _ _ _ h (by simp) (by simpa using hv)
        exact ⟨bs, hbs, by rw [henc]; simp [hc]⟩
      | [d0], _, hd =>
        have h0 := hd d0 (by simp)
        simp only [List.singleton_append] at h
        obtain ⟨bs, hbs, henc⟩ := ih _ _ _ _ h (by simp) (by simp [h0, hv])
        exact ⟨bs, hbs, by rw [henc]; simp [hc]⟩
      | [d0, d1], _, hd =>
        have h0 := hd d0 (by simp)
        have h1 := hd d1 (by simp)
        simp only [List.cons_append, List.nil_append] at h
        obtain ⟨bs, hbs, henc⟩ := ih _ _ _ _ h (by simp) (by simp [h0, h1, hv])
        exact ⟨bs, hbs, by rw [henc]; simp [hc]⟩
      | [d0, d1, d2], _, hd =>
        have h0 := hd d0 (by simp)
        have h1 := hd d1 (by simp)
        have h2 := hd d2 (by simp)
        simp only [quantumVal] at h
        obtain ⟨bs, hbs, henc⟩ := ih _ _ _ _ h (by simp) (by simp)
        refine ⟨[_, _, _] ++ bs, by rw [hbs, List.append_assoc], ?_⟩
        simp only [EncodeToString, UInt8_toNat_ofNat, List.map_cons, List.map_nil,
          List.nil_append, List.cons_append]
        rw [← hc]
        exact List.cons_eq_cons.2 ⟨congrArg encodeChar (by omega),
          List.cons_eq_cons.2 ⟨congrArg encodeChar (by omega),
            List.cons_eq_cons.2 ⟨congrArg encodeChar (by omega),
              List.cons_eq_cons.2 ⟨congrArg encodeChar (by omega), by simpa using henc⟩⟩⟩⟩
      | _ :: _ :: _ :: _ :: _, hlen, _ => simp at hlen

/-- The strict decoder accepts only strings that, without their new-line characters, are the
unpadded encoding of the bytes it returns. -/
theorem DecodeString_ok (s : GoString) (bs : Bytes) (h : DecodeString s = .ok bs) :
    EncodeToString bs = stripNewlines s := by
  obtain ⟨bs1, h1, h2⟩ := decodeLoop_ok s 0 [] [] bs h (by simp) (by simp)
  simp only [List.nil_append] at h1
  subst h1
  simpa using h2

/-- The strict decoder rejects every string that, without its new-line characters, is not valid
unpadded base64. -/
theorem DecodeString_error (s : GoString) (h : ¬ ValidRawStd (stripNewlines s)) :
    ∃ offset, DecodeString s = .error offset := by
  cases hd : DecodeString s with
  | error offset => exact ⟨offset, rfl⟩
  | ok bs => exact absurd ⟨bs, DecodeString_ok s bs hd⟩ h

/-- C12: if the random source fails while the salt is generated, `Hash` returns the empty
string together with that error, for every plaintext and every block function; no key is
derived and nothing is encoded. -/
theorem Hash_random_failure (A : Argon2) (rand : Nat → Except Error Bytes)
    (from_string : GoString) (err : Error) (h : rand 16 = .error err) :
    Hash A rand from_string = .ret ([], some err) := by
  simp [Hash, generateRandomBytes, h]

/-- Witness of C12: the plaintext of the test with a random source that is unavailable. -/
theorem Hash_random_failure_witness :
    failingRand 16 = .error (.random "entropy source unavailable") ∧
    Hash sumArgon2 failingRand "mySecretPassword".toList =
      .ret ("".toList, some (.random "entropy source unavailable")) :=
  ⟨rfl, Hash_random_failure sumArgon2 failingRand _ _ rfl⟩

/-! ## Lemmas on the fields that `decode` reads -/

theorem Split_two_fields (a b rest : GoString) (ha : '$' ∉ a) (hb : '$' ∉ b) :
    Split (a ++ '$' :: (b ++ '$' :: rest)) '$' = a :: b :: Split rest '$' := by
  unfold Split
  rw [SplitLoop_field _ _ _ _ ha, SplitLoop_field _ _ _ _ hb]
  rfl

/-- The function `decode` reads the number of fields and the fields from the third on. -/
theorem decode_congr (s1 s2 a1 b1 a2 b2 : GoString) (tl : List GoString)
    (h1 : Split s1 '$' = a1 :: b1 :: tl) (h2 : Split s2 '$' = a2 :: b2 :: tl) :
    decode s1 = decode s2 := by
  unfold decode
  rw [h1, h2]
  rfl

/-- The lengths that `decode` returns are the lengths of salt and key as `uint32`. -/
theorem decode_lengths (s : GoString) (params : Parameters) (salt hash : Bytes)
    (h : decode s = .ok (params, salt, hash)) :
    params.saltLength = uint32 salt.length ∧ params.keyLength = uint32 hash.length := by
  unfold decode at h
  dsimp only at h
  repeat' (split at h)
  all_goals cases h
  exact ⟨rfl, rfl⟩

/-- The value of `Compare` once `decode` and `argon2.IDKey` have returned. -/
theorem Compare_of_IDKey (A : Argon2) (plaintext encodedHash : GoString) (params : Parameters)
    (salt hash otherHash : Bytes) (hd : decode encodedHash = .ok (params, salt, hash))
    (hk : IDKey A (toBytes plaintext) salt params.iterations params.memory params.parallelism
      params.keyLength = .ret otherHash) :
    Compare A plaintext encodedHash = .ret (decide (hash = otherHash), none) := by
  simp only [Compare_eq, hd, hk, ConstantTimeCompare_eq_one]
  by_cases e : hash = otherHash
  · rw [if_pos e]; simp [e]
  · rw [if_neg e]; simp [e]

/-! ## The claims on `decode` and `Compare`, continued -/

/-- C25, counterexample: `decode` accepts an encoding with `p=0`, and `Compare` then panics
in `argon2.IDKey`. -/
theorem Compare_zero_parallelism_panics :
    decode "$argon2id$v=19$m=65536,t=3,p=0$Zm9v$MTIzNDU2".toList =
      .ok ({ memory := 65536, iterations := 3, parallelism := 0, saltLength := 3,
             keyLength := 6 }, [102, 111, 111], [49, 50, 51, 52, 53, 54]) ∧
    Compare sumArgon2 "x".toList "$argon2id$v=19$m=65536,t=3,p=0$Zm9v$MTIzNDU2".toList =
      .panics "argon2: parallelism degree too low" := by
  decide

/-- C25, amended: for every plaintext and every input string, `Compare` returns
`(false, err)` when `decode` fails with `err`; when `decode` succeeds, `Compare` returns
exactly when `argon2.IDKey` returns on the parsed parameters, and then as `(matches, nil)`,
which requires iterations, parallelism and key length of at least 1; when `argon2.IDKey`
panics, so does `Compare`. -/
theorem Compare_returns (A : Argon2) (plaintext encodedHash : GoString) :
    (∀ err, decode encodedHash = .error err →
      Compare A plaintext encodedHash = .ret (false, some err)) ∧
    (∀ params salt hash otherHash, decode encodedHash = .ok (params, salt, hash) →
      IDKey A (toBytes plaintext) salt params.iterations params.memory params.parallelism
        params.keyLength = .ret otherHash →
      1 ≤ params.iterations ∧ 1 ≤ params.parallelism ∧ 1 ≤ params.keyLength ∧
        Compare A plaintext encodedHash = .ret (decide (hash = otherHash), none)) ∧
    (∀ params salt hash msg, decode encodedHash = .ok (params, salt, hash) →
      IDKey A (toBytes plaintext) salt params.iterations params.memory params.parallelism
        params.keyLength = .panics msg →
      Compare A plaintext encodedHash = .panics msg) := by
  refine ⟨fun err h => by simp only [Compare_eq, h],
    fun params salt hash otherHash h hk => ?_,
    fun params salt hash msg h hk => by simp only [Compare_eq, h, hk]⟩
  obtain ⟨ht, hp, hk0, _⟩ := IDKey_ret_inv A _ _ _ _ _ _ _ hk
  exact ⟨ht, hp, by omega, Compare_of_IDKey A plaintext encodedHash params salt hash otherHash
    h hk⟩

theorem Compare_returns_witness :
    Compare sumArgon2 "x".toList "$argon2id$v=18$m=65536,t=3,p=2$Zm9v$MTIzNDU2".toList =
      .ret (false, some .IncompatibleVersionException) ∧
    Compare sumArgon2 "x".toList "$argon2id$v=19$m=65536,t=3,p=2$Zm9v$MTIzNDU2".toList =
      .ret (decide (([49, 50, 51, 52, 53, 54] : Bytes) = [193, 194, 195, 196, 197, 198]),
        none) ∧
    Compare sumArgon2 "x".toList "$argon2id$v=19$m=65536,t=3,p=2$Zm9v$".toList =
      .panics "runtime error: invalid memory address or nil pointer dereference" :=
  ⟨(Compare_returns sumArgon2 "x".toList
      "$argon2id$v=18$m=65536,t=3,p=2$Zm9v$MTIzNDU2".toList).1 _ (by decide),
   ((Compare_returns sumArgon2 "x".toList
      "$argon2id$v=19$m=65536,t=3,p=2$Zm9v$MTIzNDU2".toList).2.1
      { memory := 65536, iterations := 3, parallelism := 2, saltLength := 3, keyLength := 6 }
      [102, 111, 111] [49, 50, 51, 52, 53, 54] [193, 194, 195, 196, 197, 198] (by decide)
      (by decide)).2.2.2,
   (Compare_returns sumArgon2 "x".toList "$argon2id$v=19$m=65536,t=3,p=2$Zm9v$".toList).2.2
      { memory := 65536, iterations := 3, parallelism := 2, saltLength := 3, keyLength := 0 }
      [102, 111, 111] [] _ (by decide) (by decide)⟩

/-- C26: `decode` ignores the first two `$`-fields.  For all strings `a` and `b` without `$`
and every `rest`, `decode` returns on `a$b$rest` what it returns on `$argon2id$rest`, and so
does `Compare` for every plaintext: an encoding tagged with another algorithm or preceded by
other text is read and verified as argon2id. -/
theorem decode_ignores_first_fields (A : Argon2) (plaintext a b rest : GoString)
    (ha : '$' ∉ a) (hb : '$' ∉ b) :
    decode (a ++ "$".toList ++ b ++ "$".toList ++ rest) =
        decode ("$argon2id$".toList ++ rest) ∧
      Compare A plaintext (a ++ "$".toList ++ b ++ "$".toList ++ rest) =
        Compare A plaintext ("$argon2id$".toList ++ rest) := by
  have e1 : a ++ "$".toList ++ b ++ "$".toList ++ rest = a ++ '$' :: (b ++ '$' :: rest) := by
    simp
  have e2 : "$argon2id$".toList ++ rest = [] ++ '$' :: ("argon2id".toList ++ '$' :: rest) := by
    simp
  have hd : decode (a ++ "$".toList ++ b ++ "$".toList ++ rest) =
      decode ("$argon2id$".toList ++ rest) := by
    rw [e1, e2]
    exact decode_congr _ _ _ _ _ _ _ (Split_two_fields a b rest ha hb)
      (Split_two_fields [] "argon2id".toList rest (by simp) (by decide))
  exact ⟨hd, by simp only [Compare_eq, hd]⟩

theorem decode_ignores_first_fields_witness :
    decode "junk$argon2i$v=19$m=65536,t=3,p=2$Zm9v$MTIzNDU2".toList =
        decode "$argon2id$v=19$m=65536,t=3,p=2$Zm9v$MTIzNDU2".toList ∧
      Compare sumArgon2 "x".toList "junk$argon2i$v=19$m=65536,t=3,p=2$Zm9v$MTIzNDU2".toList =
        Compare sumArgon2 "x".toList "$argon2id$v=19$m=65536,t=3,p=2$Zm9v$MTIzNDU2".toList :=
  decode_ignores_first_fields sumArgon2 "x".toList "junk".toList "argon2i".toList
    "v=19$m=65536,t=3,p=2$Zm9v$MTIzNDU2".toList (by decide) (by decide)

/-! ## The comparison of the keys -/

/-- C24: `Compare` checks the parsed key against the candidate key with
`subtle.ConstantTimeCompare`, and for keys of equal length the work of that comparison does
not depend on the bytes: in every run of `Compare` that reaches the comparison, its loop has
read the two keys at every index from first to last, whether the keys are equal or differ,
and wherever they first differ.  `CompareTrace` is the run of `Compare` with those reads
returned next to its result `(matches, err)`. -/
theorem Compare_constant_time (A : Argon2) (plaintext encodedHash : GoString)
    (params : Parameters) (salt hash otherHash : Bytes)
    (hd : decode encodedHash = .ok (params, salt, hash))
    (hk : IDKey A (toBytes plaintext) salt params.iterations params.memory params.parallelism
      params.keyLength = .ret otherHash)
    (hlen : hash.length = otherHash.length) :
    CompareTrace A plaintext encodedHash =
      .ret ((decide (hash = otherHash), none), List.range hash.length) := by
  have h1 := ConstantTimeCompare_eq_one hash otherHash
  unfold ConstantTimeCompare at h1
  simp only [CompareTrace, hd, hk, ConstantTimeCompareTrace_reads hash otherHash hlen]
  by_cases e : hash = otherHash
  · rw [if_pos (h1.2 e)]; simp [e]
  · rw [if_neg (fun h => e (h1.1 h))]; simp [e]

/-- Witness of C24: two runs on keys of 6 bytes, one in which the keys differ at the first
byte and one in which they are equal, with the same reads. -/
theorem Compare_constant_time_witness :
    CompareTrace sumArgon2 "x".toList "$argon2id$v=19$m=65536,t=3,p=2$Zm9v$MTIzNDU2".toList =
        .ret ((decide (([49, 50, 51, 52, 53, 54] : Bytes) =
          sumArgon2.deriveKey (toBytes "x".toList) [102, 111, 111] 3 65536 2 6), none),
          List.range 6) ∧
      CompareTrace sumArgon2 "x".toList "$argon2id$v=19$m=65536,t=3,p=2$Zm9v$wcLDxMXG".toList =
        .ret ((decide (([193, 194, 195, 196, 197, 198] : Bytes) =
          sumArgon2.deriveKey (toBytes "x".toList) [102, 111, 111] 3 65536 2 6), none),
          List.range 6) ∧
      sumArgon2.deriveKey (toBytes "x".toList) [102, 111, 111] 3 65536 2 6 =
        [193, 194, 195, 196, 197, 198] :=
  ⟨Compare_constant_time sumArgon2 "x".toList
    "$argon2id$v=19$m=65536,t=3,p=2$Zm9v$MTIzNDU2".toList
    { memory := 65536, iterations := 3, parallelism := 2, saltLength := 3, keyLength := 6 }
    [102, 111, 111] [49, 50, 51, 52, 53, 54] _ (by decide) (by decide) (by decide),
   Compare_constant_time sumArgon2 "x".toList
    "$argon2id$v=19$m=65536,t=3,p=2$Zm9v$wcLDxMXG".toList
    { memory := 65536, iterations := 3, parallelism := 2, saltLength := 3, keyLength := 6 }
    [102, 111, 111] [193, 194, 195, 196, 197, 198] _ (by decide) (by decide) (by decide),
   by decide⟩

/-- C30, counterexample: for a parsed key of `2 ^ 32 + 1` bytes the key length that `decode`
returns is `uint32(2 ^ 32 + 1) = 1`, `argon2.IDKey` derives a candidate key of one byte, and
the comparison is decided by the lengths: `Compare` returns `(false, nil)`. -/
theorem Compare_longKey_lengths :
    ∃ params otherHash,
      decode longKeyHash = .ok (params, [102, 111, 111], longKey) ∧
      IDKey sumArgon2 (toBytes "x".toList) [102, 111, 111] params.iterations params.memory
        params.parallelism params.keyLength = .ret otherHash ∧
      longKey.length = 2 ^ 32 + 1 ∧ params.keyLength = 1 ∧ otherHash.length = 1 ∧
      ConstantTimeCompare longKey otherHash = 0 ∧
      Compare sumArgon2 "x".toList longKeyHash = .ret (false, none) := by
  have hl : longKey.length = 2 ^ 32 + 1 := List.length_replicate _ _
  have hu : uint32 longKey.length = 1 := by rw [hl]; rfl
  have hd := decode_Sprintf 65536 3 2 [102, 111, 111] longKey (by decide) (by decide)
    (by decide)
  rw [hu] at hd
  have hk := IDKey_ret sumArgon2 (toBytes "x".toList) [102, 111, 111] 3 65536 2 1
    (by decide) (by decide) (by decide)
  have ho : (sumArgon2.deriveKey (toBytes "x".toList) [102, 111, 111] 3 65536 2 1).length = 1 :=
    sumArgon2.deriveKey_length _ _ _ _ _ _
  have hne : longKey.length ≠
      (sumArgon2.deriveKey (toBytes "x".toList) [102, 111, 111] 3 65536 2 1).length := by
    rw [hl, ho]; decide
  refine ⟨_, _, hd, hk, hl, rfl, ho, ?_, ?_⟩
  · rw [ConstantTimeCompare_eq_fold, if_pos hne]
  · unfold longKeyHash
    rw [Compare_of_IDKey sumArgon2 _ _ _ _ _ _ hd hk]
    have hneq : longKey ≠ sumArgon2.deriveKey (toBytes "x".toList) [102, 111, 111] 3 65536 2 1 :=
      fun e => hne (congrArg List.length e)
    rw [decide_eq_false hneq]

/-- C30, amended: in every call of `Compare` that reaches the comparison with a parsed key
shorter than `2 ^ 32` bytes, the key length passed to the KDF is the length of the parsed
key, the candidate key has that length, and the outcome is decided by the bytes alone:
`matches` is true exactly when the two keys are equal. -/
theorem Compare_key_lengths (A : Argon2) (plaintext encodedHash : GoString)
    (params : Parameters) (salt hash otherHash : Bytes)
    (hd : decode encodedHash = .ok (params, salt, hash))
    (hk : IDKey A (toBytes plaintext) salt params.iterations params.memory params.parallelism
      params.keyLength = .ret otherHash)
    (hlen : hash.length < 2 ^ 32) :
    params.keyLength = hash.length ∧ otherHash.length = hash.length ∧
      Compare A plaintext encodedHash = .ret (decide (hash = otherHash), none) := by
  have h1 : params.keyLength = hash.length := by
    rw [(decode_lengths _ _ _ _ hd).2]
    exact Nat.mod_eq_of_lt hlen
  obtain ⟨_, _, _, rfl⟩ := IDKey_ret_inv A _ _ _ _ _ _ _ hk
  exact ⟨h1, by rw [A.deriveKey_length, h1], Compare_of_IDKey A _ _ _ _ _ _ hd hk⟩

theorem Compare_key_lengths_witness :
    (6 : Nat) = [49, 50, 51, 52, 53, 54].length ∧
      (sumArgon2.deriveKey (toBytes "x".toList) [102, 111, 111] 3 65536 2 6).length =
        [49, 50, 51, 52, 53, 54].length ∧
      Compare sumArgon2 "x".toList "$argon2id$v=19$m=65536,t=3,p=2$Zm9v$MTIzNDU2".toList =
        .ret (decide (([49, 50, 51, 52, 53, 54] : Bytes) =
          sumArgon2.deriveKey (toBytes "x".toList) [102, 111, 111] 3 65536 2 6), none) :=
  Compare_key_lengths sumArgon2 "x".toList
    "$argon2id$v=19$m=65536,t=3,p=2$Zm9v$MTIzNDU2".toList
    { memory := 65536, iterations := 3, parallelism := 2, saltLength := 3, keyLength := 6 }
    [102, 111, 111] [49, 50, 51, 52, 53, 54] _ (by decide) (by decide) (by decide)

/-! ## Lemmas on `pkg/common/validation.go` -/

theorem SplitLoop_head (sep : Char) (s cur : GoString) :
    (SplitLoop sep s cur).getD 0 [] = cur ++ s.takeWhile fun c => c ≠ sep := by
  induction s generalizing cur with
  | nil => simp [SplitLoop]
  | cons c cs ih =>
    by_cases h : c = sep
    · simp [SplitLoop, h]
    · rw [SplitLoop, if_neg h, ih, List.takeWhile_cons_of_pos (by simpa using h)]
      simp

/-- The first field of `strings.Split(s, ",")` is the part of `s` before the first comma. -/
theorem Split_head (s : GoString) :
    (Split s ',').getD 0 [] = s.takeWhile fun c => c ≠ ',' := by
  unfold Split
  rw [SplitLoop_head]
  rfl

/-- On the name of a field of the struct, `getJSONFieldName` returns the JSON name of that
field. -/
theorem getJSONFieldName_mem (structType : List StructField) (sf : StructField)
    (hnodup : (structType.map fun f => f.Name).Nodup) (hmem : sf ∈ structType) :
    getJSONFieldName structType sf.Name = specJSONName sf := by
  have hfind : structType.find? (fun f => f.Name = sf.Name) = some sf := by
    induction structType with
    | nil => cases hmem
    | cons f fs ih =>
      rw [List.map_cons, List.nodup_cons] at hnodup
      by_cases hf : f.Name = sf.Name
      · rcases List.mem_cons.1 hmem with e | e
        · subst e; simp
        · exact absurd (List.mem_map.2 ⟨sf, e, hf.symm⟩) hnodup.1
      · rcases List.mem_cons.1 hmem with e | e
        · exact absurd (by rw [e]) hf
        · rw [List.find?_cons_of_neg _ (by simpa using hf)]
          exact ih hnodup.2 e
  unfold getJSONFieldName specJSONName
  rw [hfind]
  simp only [Split_head]

/-- On a name that no field of the struct has, `getJSONFieldName` returns the name. -/
theorem getJSONFieldName_not_mem (structType : List StructField) (fieldName : GoString)
    (h : ∀ sf ∈ structType, sf.Name ≠ fieldName) :
    getJSONFieldName structType fieldName = fieldName := by
  have hfind : structType.find? (fun f => f.Name = fieldName) = none := by
    rw [List.find?_eq_none]
    intro sf hsf
    simpa using h sf hsf
  unfold getJSONFieldName
  rw [hfind]

/-- The message of `getValidationErrorMessage` is the text the specification lists. -/
theorem getValidationErrorMessage_spec (fe : FieldError) :
    getValidationErrorMessage fe = specMessage fe.Tag fe.Param := by
  have d1 : "email".toList ≠ "lte".toList := by decide
  have d2 : "email".toList ≠ "gte".toList := by decide
  unfold getValidationErrorMessage specMessage
  by_cases h1 : fe.Tag = "required".toList
  · simp only [h1, if_true]
  · by_cases h2 : fe.Tag = "email".toList
    · have h3 : ¬ fe.Tag = "lte".toList := by rw [h2]; exact d1
      have h4 : ¬ fe.Tag = "gte".toList := by rw [h2]; exact d2
      simp only [if_neg h1, if_neg h3, if_neg h4, if_pos h2]
    · by_cases h3 : fe.Tag = "lte".toList
      · simp only [if_neg h1, if_neg h2, if_pos h3]
      · by_cases h4 : fe.Tag = "gte".toList
        · simp only [if_neg h1, if_neg h2, if_neg h3, if_pos h4]
        · simp only [if_neg h1, if_neg h2, if_neg h3, if_neg h4]

/-! ## The claims on `ValidateBody` -/

/-- C22, counterexample: a body struct with a field `Address`, tagged `json:"address"`, whose
struct type has a required field `Street`, tagged `json:"street"`.  For a failure of
`Street` the validator reports the field name `Street`; the body struct has no field of
that name, and the entry carries `Street`, not the JSON name `street`. -/
theorem ValidateBody_nested_field :
    ValidateBody [{ Name := "Address".toList, jsonTag := "address".toList }]
        (.validationErrors
          [{ Field := "Street".toList, Tag := "required".toList, Param := [] }] ()) =
      some [{ Field := "Street".toList, Message := "This field is required.".toList }] ∧
    specJSONName { Name := "Street".toList, jsonTag := "street".toList } = "street".toList := by
  decide

/-- C22, amended: for every body that binds but fails validation, `ValidateBody` returns the
list of one entry per validation failure, in the validator's order.  The message of each
entry is the friendly text of the failing rule.  Its field is the JSON name (the part of
the `json` tag before the first comma, or the Go name without a tag) of the field of the
body struct that has the name the validator reports, and that reported name itself when the
body struct has no such field. -/
theorem ValidateBody_validation_errors {β : Type} (structType : List StructField)
    (ve : List FieldError) (body : β) (hnodup : (structType.map fun f => f.Name).Nodup) :
    ∃ out, ValidateBody structType (.validationErrors ve body) = some out ∧
      out.length = ve.length ∧
      ∀ (i : Nat) (fe : FieldError) (m : ValidationErrorMessage),
        ve[i]? = some fe → out[i]? = some m →
          m.Message = specMessage fe.Tag fe.Param ∧
          (∀ sf ∈ structType, sf.Name = fe.Field → m.Field = specJSONName sf) ∧
          ((∀ sf ∈ structType, sf.Name ≠ fe.Field) → m.Field = fe.Field) := by
  refine ⟨_, rfl, by simp, fun i fe m hfe hm => ?_⟩
  rw [List.getElem?_map, hfe] at hm
  simp only [Option.map_some', Option.some.injEq] at hm
  subst hm
  refine ⟨getValidationErrorMessage_spec fe, fun sf hsf hname => ?_, fun hno => ?_⟩
  · show getJSONFieldName structType fe.Field = specJSONName sf
    rw [← hname]
    exact getJSONFieldName_mem structType sf hnodup hsf
  · exact getJSONFieldName_not_mem structType fe.Field hno

theorem ValidateBody_validation_errors_witness :
    ValidateBody TestBodyType
        (.validationErrors
          [{ Field := "Name".toList, Tag := "required".toList, Param := [] },
           { Field := "Email".toList, Tag := "required".toList, Param := [] }] ()) =
      some [{ Field := "name".toList, Message := "This field is required.".toList },
            { Field := "email".toList, Message := "This field is required.".toList }] ∧
    ∃ out, ValidateBody TestBodyType
        (.validationErrors
          [{ Field := "Name".toList, Tag := "required".toList, Param := [] },
           { Field := "Email".toList, Tag := "required".toList, Param := [] }] ()) = some out ∧
      out.length = 2 ∧
      ∀ (i : Nat) (fe : FieldError) (m : ValidationErrorMessage),
        [({ Field := "Name".toList, Tag := "required".toList, Param := [] } : FieldError),
         { Field := "Email".toList, Tag := "required".toList, Param := [] }][i]? = some fe →
        out[i]? = some m →
          m.Message = specMessage fe.Tag fe.Param ∧
          (∀ sf ∈ TestBodyType, sf.Name = fe.Field → m.Field = specJSONName sf) ∧
          ((∀ sf ∈ TestBodyType, sf.Name ≠ fe.Field) → m.Field = fe.Field) :=
  ⟨by decide, ValidateBody_validation_errors TestBodyType _ () (by decide)⟩

end common

namespace auth

open common

/-! ## Lemmas on the token service -/

theorem round53_small (n : Nat) (h : n < 2 ^ 53) : round53 n = n := by
  unfold round53
  rw [if_pos h]

/-- Integers below `2 ^ 53` in absolute value are decoded exactly. -/
theorem Float64_ofInt_exact (n : Int) (h : n.natAbs < 2 ^ 53) :
    Float64.ofInt n = { num := n, exp2 := 0 } := by
  unfold Float64.ofInt
  rw [round53_small _ h]
  congr 1
  split <;> omega

theorem Float64_floor_int (n : Int) : Float64.floor { num := n, exp2 := 0 } = n := by
  simp [Float64.floor]

theorem Float64_trunc_int (n : Int) : Float64.trunc { num := n, exp2 := 0 } = n := by
  simp [Float64.trunc]

/-- The token that `CreateToken` returns. -/
theorem CreateToken_eq (L : Lib) (secret : GoString) (loc : Location) (now1 now2 id : Int) :
    CreateToken L secret loc now1 now2 id =
      (some (.segments (L.SigningString "HS256".toList (CreateClaims loc now1 now2 id))
        (some "HS256".toList)
        ((CreateClaims loc now1 now2 id).map fun kv => (kv.1, Value.float64 (Float64.ofInt kv.2)))
        (some (L.hmac .SHA256 (toBytes secret)
          (toBytes (L.SigningString "HS256".toList (CreateClaims loc now1 now2 id)))))),
       Option.none) := by
  rfl

theorem lookup_exp (s i e : Value) :
    List.lookup "exp".toList [("sub".toList, s), ("iat".toList, i), ("exp".toList, e)] =
      some e := by
  have h1 : ("exp".toList == "sub".toList) = false := by decide
  have h2 : ("exp".toList == "iat".toList) = false := by decide
  have h3 : ("exp".toList == "exp".toList) = true := by decide
  simp only [List.lookup, h1, h2, h3]

theorem lookup_nbf (s i e : Value) :
    List.lookup "nbf".toList [("sub".toList, s), ("iat".toList, i), ("exp".toList, e)] =
      Option.none := by
  have h1 : ("nbf".toList == "sub".toList) = false := by decide
  have h2 : ("nbf".toList == "iat".toList) = false := by decide
  have h3 : ("nbf".toList == "exp".toList) = false := by decide
  simp only [List.lookup, h1, h2, h3]

theorem lookup_sub (s i e : Value) :
    List.lookup "sub".toList [("sub".toList, s), ("iat".toList, i), ("exp".toList, e)] =
      some s := by
  have h1 : ("sub".toList == "sub".toList) = true := by decide
  simp only [List.lookup, h1]

/-- The result of `jwt.Parse` on a token whose header names an HMAC method and whose
signature segment decodes. -/
theorem Parse_hmac (L : Lib) (now : Int) (s a : GoString) (claims : MapClaims) (sig key : Bytes)
    (h : CryptoHash) (ha : GetSigningMethod a = some (.HMAC h)) :
    Parse L now (.segments s (some a) claims (some sig)) key =
      if sig = L.hmac h key (toBytes s) then
        match Validate claims now with
        | [] => .ok { Method := .HMAC h, Claims := claims, Signature := sig, Valid := true }
        | e :: es => .error (.ErrTokenInvalidClaims (e :: es))
      else .error (.ErrTokenSignatureInvalid .ErrSignatureInvalid) := by
  by_cases hs : sig = L.hmac h key (toBytes s)
  · simp only [Parse, ha, Verify, hs, if_true]
  · simp only [Parse, ha, Verify, hs, if_false]

/-- The claims of a minted token pass the validation at every clock reading before the
expiry. -/
theorem Validate_created (loc : Location) (now1 now2 id now : Int)
    (hexp : (AddDateUnix loc now2 15).natAbs < 2 ^ 53) (hnow : now < AddDateUnix loc now2 15) :
    Validate ((CreateClaims loc now1 now2 id).map fun kv =>
      (kv.1, Value.float64 (Float64.ofInt kv.2))) now = [] := by
  simp only [Validate, verifyExpiresAt, verifyNotBefore, parseNumericDate, CreateClaims,
    List.map_cons, List.map_nil, lookup_exp, lookup_nbf, Float64_ofInt_exact _ hexp,
    Float64_floor_int]
  by_cases h0 : AddDateUnix loc now2 15 = 0
  · simp [h0]
  · simp [h0, hnow]

/-- The result of `CheckToken` on a token whose header names an HMAC method, whose signature
is the HMAC of the signing string under the secret, and whose claims are valid. -/
theorem CheckToken_hmac (L : Lib) (secret : GoString) (now : Int) (s a : GoString)
    (claims : MapClaims) (h : CryptoHash) (ha : GetSigningMethod a = some (.HMAC h))
    (hv : Validate claims now = []) :
    CheckToken L secret now
        (.segments s (some a) claims (some (L.hmac h (toBytes secret) (toBytes s)))) =
      match claims.lookup "sub".toList with
      | some (.float64 subFloat) => .ret (some (int32 L subFloat), Option.none)
      | Option.none => .panics "interface conversion: interface \x7b\x7d is nil, not float64"
      | some _ => .panics "interface conversion: interface \x7b\x7d is not float64" := by
  simp only [CheckToken, Parse_hmac L now s a claims _ _ h ha, if_true, hv]

/-- The conversion `int32(float64(id))` gives `id` back for an `int32`. -/
theorem int32_ofInt (L : Lib) (id : Int) (hid : - 2 ^ 31 ≤ id ∧ id < 2 ^ 31) :
    int32 L (Float64.ofInt id) = id := by
  rw [Float64_ofInt_exact id (by omega)]
  simp only [int32, Float64_trunc_int]
  rw [if_pos hid]

/-- In a location whose offset never changes, `AddDate` adds whole days of 86400 seconds. -/
theorem AddDateUnix_fixed (loc : Location) (off sec days : Int)
    (hloc : ∀ t, (loc t).offset = off) : AddDateUnix loc sec days = sec + days * 86400 := by
  simp only [AddDateUnix, hloc]
  split
  · split <;> omega
  · omega

/-- The registry gives an HMAC method for the names `HS256`, `HS384` and `HS512` only. -/
theorem GetSigningMethod_HMAC (a : GoString) (h : CryptoHash)
    (ha : GetSigningMethod a = some (.HMAC h)) :
    a = "HS256".toList ∨ a = "HS384".toList ∨ a = "HS512".toList := by
  by_cases h1 : a = "HS256".toList
  · exact Or.inl h1
  by_cases h2 : a = "HS384".toList
  · exact Or.inr (Or.inl h2)
  by_cases h3 : a = "HS512".toList
  · exact Or.inr (Or.inr h3)
  exfalso
  have b1 : (a == "HS256".toList) = false := beq_false_of_ne h1
  have b2 : (a == "HS384".toList) = false := beq_false_of_ne h2
  have b3 : (a == "HS512".toList) = false := beq_false_of_ne h3
  simp only [GetSigningMethod, signingMethods, List.lookup, b1, b2, b3] at ha
  repeat' (split at ha)
  all_goals cases ha

/-- A method that is not an HMAC refuses the key of `CheckToken`. -/
theorem Verify_not_HMAC (L : Lib) (m : SigningMethod) (s : GoString) (sig key : Bytes)
    (hm : ∀ h, m ≠ .HMAC h) : ∃ e, Verify L m s sig key = some e := by
  cases m with
  | HMAC h => exact absurd rfl (hm h)
  | RSA h => exact ⟨_, rfl⟩
  | RSAPSS h => exact ⟨_, rfl⟩
  | ECDSA h => exact ⟨_, rfl⟩
  | Ed25519 => exact ⟨_, rfl⟩
  | none => exact ⟨_, rfl⟩

/-! ## The claims on the token service -/

/-- C13: token round trip.  For every `int32` subject `id`, every secret, every local time
zone and all clock readings, `CreateToken(id)` returns a token and a nil error, and
`CheckToken` of that token at a clock reading `now` before the expiry returns the subject
`id` and a nil error.  The expiry is taken below `2 ^ 53` seconds in absolute value, where
the JSON number of the claim `exp` is read back exactly. -/
theorem CheckToken_CreateToken (L : Lib) (secret : GoString) (loc : Location)
    (now1 now2 now id : Int) (hid : - 2 ^ 31 ≤ id ∧ id < 2 ^ 31)
    (hexp : (AddDateUnix loc now2 15).natAbs < 2 ^ 53)
    (hnow : now < AddDateUnix loc now2 15) :
    ∃ token, CreateToken L secret loc now1 now2 id = (some token, Option.none) ∧
      CheckToken L secret now token = .ret (some id, Option.none) := by
  refine ⟨_, CreateToken_eq L secret loc now1 now2 id, ?_⟩
  rw [CheckToken_hmac L secret now _ _ _ .SHA256 (by decide)
    (Validate_created loc now1 now2 id now hexp hnow)]
  simp only [CreateClaims, List.map_cons, List.map_nil, lookup_sub, int32_ofInt L id hid]

theorem CheckToken_CreateToken_witness :
    ∃ token, CreateToken sumLib "s3cret".toList UTC 1700000000 1700000000 42 =
        (some token, Option.none) ∧
      CheckToken sumLib "s3cret".toList 1700000000 token = .ret (some 42, Option.none) :=
  CheckToken_CreateToken sumLib "s3cret".toList UTC 1700000000 1700000000 1700000000 42
    (by decide) (by decide) (by decide)

/-- C14, counterexample: the difference of `exp` and `iat` is not 1296000 when the two clock
readings of `CreateToken` fall in different seconds (here 1296001), nor when the offset of
the local zone changes within the fifteen days (here 1299600, across the end of summer
time). -/
theorem CreateClaims_not_15_days :
    CreateClaims UTC 1700000000 1700000001 42 =
        [("sub".toList, 42), ("iat".toList, 1700000000), ("exp".toList, 1701296001)] ∧
      CreateClaims summerTime 1698000000 1698000000 42 =
        [("sub".toList, 42), ("iat".toList, 1698000000), ("exp".toList, 1699299600)] := by
  decide

/-- C14, amended: every token `CreateToken` mints carries exactly the three claims `sub`, the
given id, `iat`, the first clock reading, and `exp`, the second clock reading moved fifteen
calendar days ahead on the local wall clock; when the offset of the local zone never changes
and both clock readings are the same second, `exp - iat = 1296000`. -/
theorem CreateToken_claims (L : Lib) (secret : GoString) (loc : Location)
    (now1 now2 id off : Int) :
    (∃ s sig, CreateToken L secret loc now1 now2 id =
      (some (.segments s (some "HS256".toList)
        [("sub".toList, .float64 (Float64.ofInt id)),
         ("iat".toList, .float64 (Float64.ofInt now1)),
         ("exp".toList, .float64 (Float64.ofInt (AddDateUnix loc now2 15)))] (some sig)),
       Option.none)) ∧
    ((∀ t, (loc t).offset = off) → now1 = now2 →
      AddDateUnix loc now2 15 - now1 = 1296000) := by
  refine ⟨⟨_, _, CreateToken_eq L secret loc now1 now2 id⟩, fun hloc hnow => ?_⟩
  rw [AddDateUnix_fixed loc off now2 15 hloc, hnow]
  omega

theorem CreateToken_claims_witness :
    (∃ s sig, CreateToken sumLib "s3cret".toList UTC 1700000000 1700000000 42 =
      (some (.segments s (some "HS256".toList)
        [("sub".toList, .float64 { num := 42, exp2 := 0 }),
         ("iat".toList, .float64 { num := 1700000000, exp2 := 0 }),
         ("exp".toList, .float64 { num := 1701296000, exp2 := 0 })] (some sig)),
       Option.none)) ∧
    AddDateUnix UTC 1700000000 15 - 1700000000 = 1296000 :=
  ⟨(CreateToken_claims sumLib "s3cret".toList UTC 1700000000 1700000000 42 0).1,
   (CreateToken_claims sumLib "s3cret".toList UTC 1700000000 1700000000 42 0).2
      (fun _ => rfl) rfl⟩

/-- C15, counterexample: a token signed with the current secret whose claim `exp` is the
number 0, the first second of 1970, is accepted at every later clock reading: the library
takes the number 0 for an absent claim. -/
theorem CheckToken_exp_zero_accepted :
    CheckToken sumLib "s3cret".toList 1700000000
      (.segments "h.c".toList (some "HS256".toList)
        [("sub".toList, .float64 { num := 7, exp2 := 0 }),
         ("exp".toList, .float64 { num := 0, exp2 := 0 })]
        (some (sumLib.hmac .SHA256 (toBytes "s3cret".toList) (toBytes "h.c".toList)))) =
      .ret (some 7, Option.none) := by
  decide

/-- C15, amended: for every token signed with the current secret under an HMAC method whose
claim `exp` is a number other than 0, at most the clock reading `now` once truncated to
seconds (and within `2 ^ 62` seconds of the epoch, where the library's conversions are
exact), `CheckToken` returns a nil subject and an invalid-claims error that wraps the
token-expired error. -/
theorem CheckToken_expired (L : Lib) (secret : GoString) (now : Int) (s a : GoString)
    (claims : MapClaims) (h : CryptoHash) (f : Float64)
    (ha : GetSigningMethod a = some (.HMAC h))
    (hexp : claims.lookup "exp".toList = some (.float64 f)) (h0 : f.num ≠ 0)
    (_hrange : f.floor.natAbs < 2 ^ 62) (hpast : f.floor ≤ now) :
    ∃ causes, CheckToken L secret now
        (.segments s (some a) claims (some (L.hmac h (toBytes secret) (toBytes s)))) =
        .ret (Option.none, some (.ErrTokenInvalidClaims causes)) ∧
      ClaimError.ErrTokenExpired ∈ causes := by
  have hv : Validate claims now =
      ClaimError.ErrTokenExpired :: (verifyNotBefore claims now).toList := by
    simp only [Validate, verifyExpiresAt, parseNumericDate, hexp, if_neg h0,
      if_neg (not_lt.2 hpast)]
    rfl
  refine ⟨ClaimError.ErrTokenExpired :: (verifyNotBefore claims now).toList, ?_,
    List.mem_cons_self _ _⟩
  simp only [CheckToken, Parse_hmac L now s a claims _ _ h ha, if_true, hv]

theorem CheckToken_expired_witness :
    ∃ causes, CheckToken sumLib "s3cret".toList 1700000000
        (.segments "h.c".toList (some "HS256".toList)
          [("sub".toList, .float64 { num := 7, exp2 := 0 }),
           ("exp".toList, .float64 { num := 1700000000, exp2 := 0 })]
          (some (sumLib.hmac .SHA256 (toBytes "s3cret".toList) (toBytes "h.c".toList)))) =
        .ret (Option.none, some (.ErrTokenInvalidClaims causes)) ∧
      ClaimError.ErrTokenExpired ∈ causes :=
  CheckToken_expired sumLib "s3cret".toList 1700000000 "h.c".toList "HS256".toList _ .SHA256
    { num := 1700000000, exp2 := 0 } (by decide) (by decide) (by decide) (by decide) (by decide)

/-- C17: a token signed with the current secret and not expired whose claim `sub` is a
string, or is missing, makes `CheckToken` panic in the type assertion
`claims["sub"].(float64)`; it does not return a nil subject and an error. -/
theorem CheckToken_sub_not_a_number_panics :
    CheckToken sumLib "s3cret".toList 1700000000
        (.segments "h.c".toList (some "HS256".toList)
          [("sub".toList, .string "7".toList),
           ("exp".toList, .float64 { num := 1800000000, exp2 := 0 })]
          (some (sumLib.hmac .SHA256 (toBytes "s3cret".toList) (toBytes "h.c".toList)))) =
        .panics "interface conversion: interface \x7b\x7d is not float64" ∧
      CheckToken sumLib "s3cret".toList 1700000000
        (.segments "h.c".toList (some "HS256".toList)
          [("exp".toList, .float64 { num := 1800000000, exp2 := 0 })]
          (some (sumLib.hmac .SHA256 (toBytes "s3cret".toList) (toBytes "h.c".toList)))) =
        .panics "interface conversion: interface \x7b\x7d is nil, not float64" := by
  decide

/-- C18, counterexample: a token whose header names `HS384` and whose signature is the
HMAC-SHA384 of its signing string under the current secret is accepted. -/
theorem CheckToken_HS384_accepted :
    CheckToken sumLib "s3cret".toList 1700000000
      (.segments "h.c".toList (some "HS384".toList)
        [("sub".toList, .float64 { num := 7, exp2 := 0 }),
         ("exp".toList, .float64 { num := 1800000000, exp2 := 0 })]
        (some (sumLib.hmac .SHA384 (toBytes "s3cret".toList) (toBytes "h.c".toList)))) =
      .ret (some 7, Option.none) := by
  decide

/-- C18, amended: `CheckToken` returns a nil subject and an error for every token whose
header does not name one of the HMAC algorithms `HS256`, `HS384` and `HS512` (a header
without `alg`, an unregistered name, `none`, and the RSA, ECDSA and EdDSA names included),
whatever its claims and signature are. -/
theorem CheckToken_not_HMAC (L : Lib) (secret : GoString) (now : Int) (s : GoString)
    (alg : Option GoString) (claims : MapClaims) (signature : Option Bytes)
    (h256 : alg ≠ some "HS256".toList) (h384 : alg ≠ some "HS384".toList)
    (h512 : alg ≠ some "HS512".toList) :
    ∃ err, CheckToken L secret now (.segments s alg claims signature) =
      .ret (Option.none, some err) := by
  cases alg with
  | none => exact ⟨_, rfl⟩
  | some a =>
    cases hm : GetSigningMethod a with
    | none => exact ⟨.ErrTokenUnverifiable, by simp only [CheckToken, Parse, hm]⟩
    | some m =>
      have hnot : ∀ h, m ≠ .HMAC h := by
        intro h hmh
        rw [hmh] at hm
        rcases GetSigningMethod_HMAC a h hm with e | e | e
        · exact h256 (by rw [e])
        · exact h384 (by rw [e])
        · exact h512 (by rw [e])
      cases signature with
      | none => exact ⟨.ErrTokenMalformed, by simp only [CheckToken, Parse, hm]⟩
      | some sig =>
        obtain ⟨e, he⟩ := Verify_not_HMAC L m s sig (toBytes secret) hnot
        exact ⟨.ErrTokenSignatureInvalid e, by simp only [CheckToken, Parse, hm, he]⟩

theorem CheckToken_not_HMAC_witness :
    ∃ err, CheckToken sumLib "s3cret".toList 1700000000
      (.segments "h.c".toList (some "none".toList)
        [("sub".toList, .float64 { num := 7, exp2 := 0 })] (some [])) =
      .ret (Option.none, some err) :=
  CheckToken_not_HMAC sumLib "s3cret".toList 1700000000 "h.c".toList (some "none".toList) _ _
    (by decide) (by decide) (by decide)

/-- C19, counterexample: with the secret empty, `CreateToken` returns a token and a nil
error; the token is signed with the empty key. -/
theorem CreateToken_empty_secret :
    ∃ s claims, CreateToken sumLib [] UTC 1700000000 1700000000 42 =
      (some (.segments s (some "HS256".toList) claims (some (sumLib.hmac .SHA256 [] (toBytes s)))),
       Option.none) :=
  ⟨_, _, rfl⟩

/-- C19, amended: for every value of the secret, the empty one included, and every subject
id, `CreateToken` returns a token and a nil error; the signature of the token is the
HMAC-SHA256 of its signing string under that value, so `CheckToken` with the same secret
finds it valid. -/
theorem CreateToken_total (L : Lib) (secret : GoString) (loc : Location)
    (now1 now2 id : Int) :
    ∃ s claims, CreateToken L secret loc now1 now2 id =
        (some (.segments s (some "HS256".toList) claims
          (some (L.hmac .SHA256 (toBytes secret) (toBytes s)))), Option.none) ∧
      Verify L (.HMAC .SHA256) s (L.hmac .SHA256 (toBytes secret) (toBytes s))
        (toBytes secret) = Option.none := by
  refine ⟨_, _, CreateToken_eq L secret loc now1 now2 id, ?_⟩
  simp only [Verify, if_true]

/-! ## The claims on the login handler -/

/-- C23: for a request whose body cannot be parsed, `ctx.ShouldBind` returns an error that is
not a `validator.ValidationErrors` and leaves the struct empty; `ValidateBody` returns nil
all the same, and `Login` goes on to look up the user with the empty email. -/
theorem ValidateBody_unparsed_body :
    ValidateBody LoginBodyType
        (.otherError "unexpected EOF" ({ Email := [], Password := [] } : LoginBody)) =
      Option.none ∧
    Login sumArgon2 panickingAuthService (MockUsersService sumArgon2 (countingRand 7))
        { ParseForm := Option.none,
          ShouldBind := .otherError "unexpected EOF" { Email := [], Password := [] } } =
      .ret (.AbortWithError 400 (.New "user not found")) := by
  decide

/-- C27: for every token signed with the current secret under an HMAC method that is
unexpired at the clock reading `now`, and whose claim `sub` is a number with integer part in
the range of `int32`, `CheckToken` returns that integer part, the number rounded toward zero,
and a nil error, whether the number is an integer or not.  Unexpired: the claim `exp`, where
the token has one, is a number from 0 to `2 ^ 62` that is 0 or later than `now`, and the
claim `nbf`, where the token has one, is a number from 0 to `2 ^ 62` that is 0 or not later
than `now`; within that range the dates the library computes are exact. -/
theorem CheckToken_truncates_sub (L : Lib) (secret : GoString) (now : Int) (s a : GoString)
    (claims : MapClaims) (h : CryptoHash) (f : Float64)
    (ha : GetSigningMethod a = some (.HMAC h))
    (hexp : ∀ v, claims.lookup "exp".toList = some v →
      ∃ e : Float64, v = .float64 e ∧ 0 ≤ e.num ∧ e.floor < 2 ^ 62 ∧
        (e.num = 0 ∨ now < e.floor))
    (hnbf : ∀ v, claims.lookup "nbf".toList = some v →
      ∃ e : Float64, v = .float64 e ∧ 0 ≤ e.num ∧ e.floor < 2 ^ 62 ∧
        (e.num = 0 ∨ e.floor ≤ now))
    (hsub : claims.lookup "sub".toList = some (.float64 f))
    (hrange : - 2 ^ 31 ≤ f.trunc ∧ f.trunc < 2 ^ 31) :
    CheckToken L secret now
        (.segments s (some a) claims (some (L.hmac h (toBytes secret) (toBytes s)))) =
      .ret (some (Int.tdiv f.num (2 ^ f.exp2)), Option.none) := by
  have h1 : verifyExpiresAt claims now = Option.none := by
    unfold verifyExpiresAt parseNumericDate
    cases hl : claims.lookup "exp".toList with
    | none => rfl
    | some v =>
      obtain ⟨e, rfl, _, _, he⟩ := hexp v hl
      rcases he with he | he
      · simp only [he, if_true]
      · by_cases h0 : e.num = 0
        · simp only [h0, if_true]
        · simp only [h0, if_false, he, if_true]
  have h2 : verifyNotBefore claims now = Option.none := by
    unfold verifyNotBefore parseNumericDate
    cases hl : claims.lookup "nbf".toList with
    | none => rfl
    | some v =>
      obtain ⟨e, rfl, _, _, he⟩ := hnbf v hl
      rcases he with he | he
      · simp only [he, if_true]
      · by_cases h0 : e.num = 0
        · simp only [h0, if_true]
        · simp only [h0, if_false, if_neg (not_lt.2 he)]
  have hv : Validate claims now = [] := by
    unfold Validate
    rw [h1, h2]
    rfl
  rw [CheckToken_hmac L secret now s a claims h ha hv, hsub]
  simp only [int32]
  rw [if_pos hrange]
  rfl

theorem CheckToken_truncates_sub_witness :
    CheckToken sumLib "s3cret".toList 1700000000
        (.segments "h.c".toList (some "HS256".toList)
          [("sub".toList, .float64 { num := 4447304632028365, exp2 := 49 }),
           ("exp".toList, .float64 { num := 1800000000, exp2 := 0 })]
          (some (sumLib.hmac .SHA256 (toBytes "s3cret".toList) (toBytes "h.c".toList)))) =
      .ret (some (Int.tdiv 4447304632028365 (2 ^ 49)), Option.none) ∧
    Int.tdiv 4447304632028365 (2 ^ 49) = 7 ∧ Int.tdiv (- 4447304632028365) (2 ^ 49) = - 7 :=
  ⟨CheckToken_truncates_sub sumLib "s3cret".toList 1700000000 "h.c".toList "HS256".toList _
    .SHA256 { num := 4447304632028365, exp2 := 49 } (by decide)
    (fun v hv => ⟨{ num := 1800000000, exp2 := 0 },
      by
        have e : List.lookup "exp".toList
            [("sub".toList, Value.float64 { num := 4447304632028365, exp2 := 49 }),
             ("exp".toList, Value.float64 { num := 1800000000, exp2 := 0 })] =
            some (Value.float64 { num := 1800000000, exp2 := 0 }) := by decide
        rw [e] at hv
        exact (Option.some.inj hv).symm,
      by decide, by decide, Or.inr (by decide)⟩)
    (fun v hv => by
      have e : List.lookup "nbf".toList
          [("sub".toList, Value.float64 { num := 4447304632028365, exp2 := 49 }),
           ("exp".toList, Value.float64 { num := 1800000000, exp2 := 0 })] =
          Option.none := by decide
      rw [e] at hv
      cases hv)
    (by decide) (by decide), by decide, by decide⟩

end auth

namespace middlewares

open common auth

/-! ## The claims on the authentication middleware -/

/-- C28: for a header `Authorization` of the form `scheme token` with the bearer scheme, for
which `CheckToken` returns `(id, err)`: when `err` is nil the handler stores `id` under the
key `id` and runs the downstream handlers on that context; when `err` is an error it aborts
with status 500 and that error, the keys are unchanged, and the result is the same for every
downstream handler, so none is run. -/
theorem Handler_CheckToken_result (caseTable : Char → Char) (service : AuthService)
    (Next : Context → Go Context) (authHeader scheme token : GoString) (ctx : Context)
    (id : Option Int) (err : Option GoError)
    (hsplit : Split authHeader ' ' = [scheme, token])
    (hscheme : ToLower caseTable scheme = "bearer".toList)
    (hcheck : service.CheckToken token = .ret (id, err)) :
    (err = Option.none →
      Handler caseTable service Next authHeader ctx = Next (ctx.Set "id".toList id) ∧
      (ctx.Set "id".toList id).Get "id".toList = some id) ∧
    (∀ e, err = some e →
      (∀ Next2 : Context → Go Context,
        Handler caseTable service Next2 authHeader ctx = .ret (ctx.AbortWithError 500 e)) ∧
      (ctx.AbortWithError 500 e).Status = 500 ∧ (ctx.AbortWithError 500 e).Aborted = true ∧
      (ctx.AbortWithError 500 e).Keys = ctx.Keys) := by
  have hcond : ¬ ([scheme, token].length ≠ 2 ∨
      ToLower caseTable ([scheme, token].getD 0 []) ≠ "bearer".toList) := by
    simp [hscheme]
  refine ⟨fun he => ⟨?_, ?_⟩, fun e he => ⟨fun Next2 => ?_, rfl, rfl, rfl⟩⟩
  · subst he
    simp only [Handler, hsplit, if_neg hcond]
    simp only [List.getD_cons_succ, List.getD_cons_zero, hcheck]
  · simp [Context.Get, Context.Set, List.lookup]
  · subst he
    simp only [Handler, hsplit, if_neg hcond]
    simp only [List.getD_cons_succ, List.getD_cons_zero, hcheck]

theorem Handler_CheckToken_result_witness :
    Handler asciiCaseTable (fixedAuthService "good".toList 42) markingNext
        "Bearer good".toList newContext =
      markingNext (newContext.Set "id".toList (some 42)) ∧
    markingNext (newContext.Set "id".toList (some 42)) =
      .ret { Keys := [("id".toList, some 42)], Status := 204, Errors := [],
             Aborted := false } ∧
    ∀ Next2 : Context → Go Context,
      Handler asciiCaseTable (fixedAuthService "good".toList 42) Next2
          "Bearer bad".toList newContext =
        .ret (newContext.AbortWithError 500 (.jwt .ErrTokenMalformed)) :=
  ⟨((Handler_CheckToken_result asciiCaseTable (fixedAuthService "good".toList 42)
      markingNext "Bearer good".toList "Bearer".toList "good".toList newContext (some 42)
      Option.none (by decide) (by decide) (by decide)).1 rfl).1,
   by decide,
   ((Handler_CheckToken_result asciiCaseTable (fixedAuthService "good".toList 42)
      markingNext "Bearer bad".toList "Bearer".toList "bad".toList newContext Option.none
      (some (.jwt .ErrTokenMalformed)) (by decide) (by decide) (by decide)).2 _ rfl).1⟩

/-- C29: the handler passes a token to `CheckToken` exactly when the value of the header
`Authorization`, split on the space character, has two parts of which the first is `bearer`
once lowered with `strings.ToLower`; the token passed is the second part, and the outcome is
decided by what `CheckToken` returns for it.  For every other value (a missing header,
another scheme, two spaces, a trailing space) the handler aborts with status 401 and the
error "An access token is required for accessing this data.", for every authentication
service and every downstream handler: `CheckToken` is not called. -/
theorem Handler_bearer (caseTable : Char → Char) (service : AuthService)
    (Next : Context → Go Context) (authHeader : GoString) (ctx : Context) :
    (∀ scheme token, Split authHeader ' ' = [scheme, token] →
      ToLower caseTable scheme = "bearer".toList →
      Handler caseTable service Next authHeader ctx =
        match service.CheckToken token with
        | .panics msg => .panics msg
        | .ret (_, some err) => .ret (ctx.AbortWithError 500 err)
        | .ret (id, Option.none) => Next (ctx.Set "id".toList id)) ∧
    ((∀ scheme token, Split authHeader ' ' = [scheme, token] →
        ToLower caseTable scheme ≠ "bearer".toList) →
      Handler caseTable service Next authHeader ctx =
        .ret (ctx.AbortWithError 401
          (.New "An access token is required for accessing this data."))) := by
  refine ⟨fun scheme token hsplit hscheme => ?_, fun hno => ?_⟩
  · have hcond : ¬ ([scheme, token].length ≠ 2 ∨
        ToLower caseTable ([scheme, token].getD 0 []) ≠ "bearer".toList) := by
      simp [hscheme]
    simp only [Handler, hsplit, if_neg hcond]
    rfl
  · have hcond : (Split authHeader ' ').length ≠ 2 ∨
        ToLower caseTable ((Split authHeader ' ').getD 0 []) ≠ "bearer".toList := by
      by_cases hlen : (Split authHeader ' ').length = 2
      · right
        match hs : Split authHeader ' ', hlen with
        | [scheme, token], _ => exact hno scheme token hs
      · exact Or.inl hlen
    simp only [Handler, if_pos hcond]

theorem Handler_bearer_witness :
    Handler asciiCaseTable echoingAuthService panickingNext "bEaReR tok".toList newContext =
      .panics "tok" ∧
    Handler asciiCaseTable echoingAuthService panickingNext "".toList newContext =
      .ret (newContext.AbortWithError 401
        (.New "An access token is required for accessing this data.")) ∧
    Handler asciiCaseTable echoingAuthService panickingNext "Basic abc".toList newContext =
      .ret (newContext.AbortWithError 401
        (.New "An access token is required for accessing this data.")) ∧
    Handler asciiCaseTable echoingAuthService panickingNext "Bearer  tok".toList newContext =
      .ret (newContext.AbortWithError 401
        (.New "An access token is required for accessing this data.")) ∧
    Handler asciiCaseTable echoingAuthService panickingNext "Bearer tok ".toList newContext =
      .ret (newContext.AbortWithError 401
        (.New "An access token is required for accessing this data.")) :=
  ⟨(Handler_bearer asciiCaseTable echoingAuthService panickingNext "bEaReR tok".toList
      newContext).1 "bEaReR".toList "tok".toList (by decide) (by decide),
   (Handler_bearer asciiCaseTable echoingAuthService panickingNext "".toList newContext).2
      (fun scheme token h => by
        have e : Split "".toList ' ' = [[]] := by decide
        rw [e] at h
        cases h),
   (Handler_bearer asciiCaseTable echoingAuthService panickingNext "Basic abc".toList
      newContext).2
      (fun scheme token h => by
        have e : Split "Basic abc".toList ' ' = ["Basic".toList, "abc".toList] := by decide
        rw [e] at h
        cases h
        decide),
   (Handler_bearer asciiCaseTable echoingAuthService panickingNext "Bearer  tok".toList
      newContext).2
      (fun scheme token h => by
        have e : Split "Bearer  tok".toList ' ' = ["Bearer".toList, [], "tok".toList] := by
          decide
        rw [e] at h
        cases h),
   (Handler_bearer asciiCaseTable echoingAuthService panickingNext "Bearer tok ".toList
      newContext).2
      (fun scheme token h => by
        have e : Split "Bearer tok ".toList ' ' = ["Bearer".toList, "tok".toList, []] := by
          decide
        rw [e] at h
        cases h)⟩

end middlewares
